import Mathlib

/-!
Verification of the lead-enricher people-extraction engine.

Shallow embedding of `src/Untitled-2.py` (the website people enricher).
Python strings are modelled as `List Char`; Python `float` scores are
modelled as `ℚ` (every weight in the program is a multiple of 0.5, so
float arithmetic there is exact); Python `int` configuration values
(`max_pages`, `decision_limit`) are modelled as `ℤ`.

The network layer (`requests`) and the HTML parser (`BeautifulSoup`) are
external collaborators of the program; they are modelled as oracle inputs
(a `fetch` function and, per fetched page, the data the DOM traversal
hands to the string-processing core).  Everything string-level —
URL splitting/joining/normalisation, e-mail cleaning and de-obfuscation,
the name-shape test, keyword matching including the exact
`re.escape`-based pattern construction, script-payload key/value
extraction, deduplication, scoring and decision-maker selection — is
embedded from the source.
-/

namespace LeadEnricher

/-- Python strings are modelled as lists of characters. -/
abbrev PyStr := List Char

/-- Coerce a Lean string literal to the `PyStr` model. -/
def pys (s : String) : PyStr := s.data

/-- Unicode whitespace as recognised by Python's `str.strip()` / `\s`
(the ASCII whitespace characters together with the common Unicode space
characters: NEL, NBSP, ogham space, the U+2000 block, line/paragraph
separators, narrow no-break space, medium mathematical space and
ideographic space). -/
def isPySpace (c : Char) : Bool :=
  c = ' ' || c = '\t' || c = '\n' || c = '\r' || c.toNat = 0x0b || c.toNat = 0x0c ||
  (0x1c ≤ c.toNat && c.toNat ≤ 0x1f) || c.toNat = 0x85 || c.toNat = 0xa0 ||
  c.toNat = 0x1680 || (0x2000 ≤ c.toNat && c.toNat ≤ 0x200a) ||
  c.toNat = 0x2028 || c.toNat = 0x2029 || c.toNat = 0x202f || c.toNat = 0x205f ||
  c.toNat = 0x3000

/-- Drop the longest suffix of elements satisfying `p`. -/
def dropEndWhile (p : Char → Bool) (s : PyStr) : PyStr :=
  (s.reverse.dropWhile p).reverse

/-- Python `str.strip()` (no argument): drop whitespace from both ends. -/
def pyStrip (s : PyStr) : PyStr :=
  dropEndWhile isPySpace (s.dropWhile isPySpace)

/-- Python `str.strip(chars)`: drop any of the given characters from both ends. -/
def pyStripChars (chars : PyStr) (s : PyStr) : PyStr :=
  dropEndWhile (chars.contains ·) (s.dropWhile (chars.contains ·))

/-- Python `str.rstrip(chars)`. -/
def pyRStripChars (chars : PyStr) (s : PyStr) : PyStr :=
  dropEndWhile (chars.contains ·) s

/-- Python `str.lower()` restricted to ASCII and the Latin-1 letters
(`À`–`Þ` map to `à`–`þ` except the multiplication sign `×`); characters
outside these ranges are returned unchanged, which matches Python on all
inputs the program manipulates. -/
def pyLowerChar (c : Char) : Char :=
  if 'A' ≤ c ∧ c ≤ 'Z' then Char.ofNat (c.toNat + 32)
  else if 0xC0 ≤ c.toNat ∧ c.toNat ≤ 0xDE ∧ c.toNat ≠ 0xD7 then Char.ofNat (c.toNat + 32)
  else c

/-- Python `str.lower()` over the model. -/
def pyLower (s : PyStr) : PyStr := s.map pyLowerChar

/-- Python `sub in s` (substring containment). -/
def pyContains (s sub : PyStr) : Bool :=
  (List.range (s.length + 1)).any (fun i => (s.drop i).take sub.length = sub)

/-- Python `s.startswith(p)`. -/
def pyStartsWith (s p : PyStr) : Bool := s.take p.length = p

/-- Python `s.split(sep, 1)[0]`: the prefix of `s` before the first
occurrence of the (single-character) separator. -/
def pySplitFirst (sep : Char) (s : PyStr) : PyStr := s.takeWhile (· ≠ sep)

/-- The part of `s` after the first occurrence of `sep` (`s.split(sep, 1)[1]`);
`[]` when `sep` does not occur. -/
def pyAfterFirst (sep : Char) (s : PyStr) : PyStr :=
  (s.dropWhile (· ≠ sep)).drop 1

/-- Python `str.split(sep)` on a single-character separator (every
occurrence splits; empty fields are kept). -/
def pySplitAll (sep : Char) : PyStr → List PyStr
  | [] => [[]]
  | c :: rest =>
    if c = sep then [] :: pySplitAll sep rest
    else
      match pySplitAll sep rest with
      | [] => [[c]]
      | f :: fs => (c :: f) :: fs

/-- Python `sep.join(parts)` for a single-character separator. -/
def pyJoin (sep : PyStr) : List PyStr → PyStr
  | [] => []
  | [p] => p
  | p :: ps => p ++ sep ++ pyJoin sep ps

/-! ## A small regular-expression engine

`keyword_in_text` in the source builds a pattern string with `re.escape`
and a separator-substitution and hands it to `re.search` with `re.I`.
The generated patterns use only: literal characters, backslash escapes
(`\b`, `\s`, `\uXXXX`, and escaped punctuation), character classes
without ranges, and the `+` quantifier.  The engine below parses and
matches exactly that fragment; `parseRegex` fails on anything else
(no generated pattern does). -/

/-- A single regex atom of the fragment the program generates. -/
inductive RAtom where
  | lit (c : Char)
  | cls (cs : List Char) (ws : Bool)
  | wordB
deriving DecidableEq, Repr

/-- An atom with its quantifier: exactly once, one-or-more, or optional. -/
inductive RTok where
  | once (a : RAtom)
  | plus (a : RAtom)
  | opt (a : RAtom)
deriving DecidableEq, Repr

/-- Word characters (`\w`) over the Latin ranges the program's patterns
name: ASCII alphanumerics, underscore, and the Latin-1 letters
`À`–`Ö`, `Ø`–`ö`, `ø`–`ÿ`.  (Python's Unicode `\w` is larger, but the
program only ever distinguishes word characters on Latin text.) -/
def isWordChar (c : Char) : Bool :=
  ('A' ≤ c && c ≤ 'Z') || ('a' ≤ c && c ≤ 'z') || ('0' ≤ c && c ≤ '9') || c = '_' ||
  (0xC0 ≤ c.toNat && c.toNat ≤ 0xD6) || (0xD8 ≤ c.toNat && c.toNat ≤ 0xF6) ||
  (0xF8 ≤ c.toNat && c.toNat ≤ 0xFF)

/-- Embeds `\b`: true when exactly one side of the position is a word character. -/
def boundaryOk (prev next : Option Char) : Bool :=
  (match prev with | none => false | some c => isWordChar c) ≠
  (match next with | none => false | some c => isWordChar c)

/-- Case-insensitive single-character match of an atom (`re.I`). -/
def atomMatches : RAtom → Char → Bool
  | .lit a, c => pyLowerChar a = pyLowerChar c
  | .cls cs ws, c => cs.any (fun a => pyLowerChar a = pyLowerChar c) || (ws && isPySpace c)
  | .wordB, _ => false

/-- Fuel-indexed matching loop: does the token list match a prefix of
`s`?  `prev` is the character just before the current position (for
`\b`).  Backtracking over `+` and `?` is a disjunction, so this decides
the existence of a match exactly as the backtracking engine does.  Every
recursive call strictly decreases `s.length + toks.length`, so fuel
equal to that sum never runs out (structural recursion on the fuel keeps
the definition kernel-reducible). -/
def matchToksF : Nat → List RTok → Option Char → List Char → Bool
  | 0, _, _, _ => false
  | _ + 1, [], _, _ => true
  | fuel + 1, .once .wordB :: rest, prev, s =>
    boundaryOk prev s.head? && matchToksF fuel rest prev s
  | fuel + 1, .once a :: rest, _prev, s =>
    match s with
    | [] => false
    | c :: s' => atomMatches a c && matchToksF fuel rest (some c) s'
  | fuel + 1, .opt a :: rest, prev, s =>
    (match s with
     | [] => false
     | c :: s' => atomMatches a c && matchToksF fuel rest (some c) s') ||
    matchToksF fuel rest prev s
  | fuel + 1, .plus a :: rest, _prev, s =>
    match s with
    | [] => false
    | c :: s' =>
      atomMatches a c &&
        (matchToksF fuel rest (some c) s' || matchToksF fuel (.plus a :: rest) (some c) s')

/-- Match the token list at the current position. -/
def matchToks (toks : List RTok) (prev : Option Char) (s : List Char) : Bool :=
  matchToksF (s.length + toks.length + 1) toks prev s

/-- Embeds `re.search`: does the pattern match starting at some position of `s`? -/
def searchToks (toks : List RTok) : Option Char → List Char → Bool
  | prev, s =>
    matchToks toks prev s ||
    match s with
    | [] => false
    | c :: s' => searchToks toks (some c) s'

/-- Read exactly four hexadecimal digits (for `\uXXXX`). -/
def readHex4 : List Char → Option (Nat × List Char)
  | a :: b :: c :: d :: rest =>
    let dig (x : Char) : Option Nat :=
      if '0' ≤ x ∧ x ≤ '9' then some (x.toNat - '0'.toNat)
      else if 'a' ≤ x ∧ x ≤ 'f' then some (x.toNat - 'a'.toNat + 10)
      else if 'A' ≤ x ∧ x ≤ 'F' then some (x.toNat - 'A'.toNat + 10)
      else none
    match dig a, dig b, dig c, dig d with
    | some w, some x, some y, some z => some (((w * 16 + x) * 16 + y) * 16 + z, rest)
    | _, _, _, _ => none
  | _ => none

/-- Parse the body of a character class (after `[`, up to `]`).
The generated classes contain no ranges: every member is a literal
character or a `\s` / `\uXXXX` / escaped-punctuation item. -/
def parseClassBody : List Char → List Char → Bool → Option (RAtom × List Char)
  | ']' :: rest, cs, ws => some (.cls cs.reverse ws, rest)
  | '\\' :: 's' :: rest, cs, _ws => parseClassBody rest cs true
  | '\\' :: 'u' :: a :: b :: c :: d :: rest, cs, ws =>
    match readHex4 [a, b, c, d] with
    | some (n, _) => parseClassBody rest (Char.ofNat n :: cs) ws
    | none => none
  | '\\' :: 'u' :: _, _, _ => none
  | '\\' :: c :: rest, cs, ws => parseClassBody rest (c :: cs) ws
  | c :: rest, cs, ws =>
    if c = '-' ∨ c = '[' ∨ c = '\\' then none else parseClassBody rest (c :: cs) ws
  | [], _, _ => none

/-- Parse one atom from the head of the pattern string. -/
def parseAtom : List Char → Option (RAtom × List Char)
  | '\\' :: 'b' :: rest => some (.wordB, rest)
  | '\\' :: 's' :: rest => some (.cls [] true, rest)
  | '\\' :: 'u' :: rest =>
    match readHex4 rest with
    | some (n, rest') => some (.lit (Char.ofNat n), rest')
    | none => none
  | '\\' :: c :: rest =>
    if c.isAlpha ∨ c.isDigit then none else some (.lit c, rest)
  | '[' :: rest => parseClassBody rest [] false
  | c :: rest =>
    if c = '+' ∨ c = '*' ∨ c = '?' ∨ c = '(' ∨ c = ')' ∨ c = '|' ∨ c = '{' ∨
       c = '}' ∨ c = ']' ∨ c = '^' ∨ c = '$' ∨ c = '.' ∨ c = '\\' then none
    else some (.lit c, rest)
  | [] => none

/-- Fuel-indexed parsing loop for whole patterns.  Each parsed atom
consumes at least one character, so fuel equal to the pattern length
never runs out. -/
def parseRegexAux : Nat → List Char → Option (List RTok)
  | _, [] => some []
  | 0, _ => none
  | fuel + 1, s =>
    match parseAtom s with
    | none => none
    | some (a, rest) =>
      match rest with
      | '+' :: rest' =>
        if a = .wordB then none
        else
          match parseRegexAux fuel rest' with
          | some toks => some (.plus a :: toks)
          | none => none
      | '?' :: rest' =>
        if a = .wordB then none
        else
          match parseRegexAux fuel rest' with
          | some toks => some (.opt a :: toks)
          | none => none
      | _ =>
        match parseRegexAux fuel rest with
        | some toks => some (.once a :: toks)
        | none => none

/-- Parse a whole pattern string of the generated fragment into tokens. -/
def parseRegex (s : List Char) : Option (List RTok) := parseRegexAux s.length s

/-! ## Embedding of `keyword_in_text` (source lines 140–152) -/

/-- The characters `re.escape` prefixes with a backslash
(CPython's `_special_chars_map`: `()[]{}?*+-|^$\.&~# \t\n\r\v\f`). -/
def reEscapeSpecial (c : Char) : Bool :=
  c = '(' || c = ')' || c = '[' || c = ']' || c = '{' || c = '}' || c = '?' ||
  c = '*' || c = '+' || c = '-' || c = '|' || c = '^' || c = '$' || c = '\\' ||
  c = '.' || c = '&' || c = '~' || c = '#' || c = ' ' || c = '\t' || c = '\n' ||
  c = '\r' || c.toNat = 0x0b || c.toNat = 0x0c

/-- Python `re.escape`. -/
def reEscape (s : PyStr) : PyStr :=
  s.flatMap (fun c => if reEscapeSpecial c then ['\\', c] else [c])

/-- The separator class `[\s ‑‒–—−\-&]` of the
substitution in `keyword_in_text` (whitespace, no-break space, the Unicode
hyphen/dash family, minus sign, hyphen-minus and ampersand). -/
def sepClassChar (c : Char) : Bool :=
  isPySpace c || c.toNat = 0x2011 || c.toNat = 0x2012 || c.toNat = 0x2013 ||
  c.toNat = 0x2014 || c.toNat = 0x2212 || c = '-' || c = '&'

/-- The replacement text the substitution inserts for each separator run
(the template `[\\s\\u00A0\\u2011\\u2012\\u2013\\u2014\\u2212\\-&]+` after
`re.sub` backslash processing). -/
def sepReplacement : PyStr := pys "[\\s\\u00A0\\u2011\\u2012\\u2013\\u2014\\u2212\\-&]+"

/-- Embeds `re.sub(r"[\s ‑‒–—−\-&]+", repl, s)`:
replace every maximal run of separator characters with the replacement
text.  Note the input here is the `re.escape`d keyword: the backslashes
that `re.escape` inserted are not separator characters, so an escaped
ASCII separator (`\ ` or `\-`) contributes only its second character to a
run, leaving the preceding backslash in place.
The scanning loop's flag records whether the previous character belonged
to the current separator run (the replacement is emitted only at a run's
first character); the loop is structurally recursive so it stays
kernel-reducible. -/
def sepSubGo : Bool → PyStr → PyStr
  | _, [] => []
  | inRun, c :: rest =>
    if sepClassChar c then
      if inRun then sepSubGo true rest else sepReplacement ++ sepSubGo true rest
    else c :: sepSubGo false rest

/-- The separator substitution on a whole string. -/
def sepSub (s : PyStr) : PyStr := sepSubGo false s

/-- The alphabet test `re.sub(r"[^A-Za-zÀ-ÖØ-öø-ÿ]", "", keyword)`
is non-empty iff some character of the keyword is a (Latin) letter. -/
def isKwAlpha (c : Char) : Bool :=
  ('A' ≤ c && c ≤ 'Z') || ('a' ≤ c && c ≤ 'z') ||
  (0xC0 ≤ c.toNat && c.toNat ≤ 0xD6) || (0xD8 ≤ c.toNat && c.toNat ≤ 0xF6) ||
  (0xF8 ≤ c.toNat && c.toNat ≤ 0xFF)

/-- Embeds `keyword_in_text(text, keyword)` (source lines 140–152): escape the
stripped keyword, make separator runs "flexible" via the substitution,
wrap in `\b ... \b` when the keyword contains a letter, and search the
text case-insensitively.  (A pattern the fragment grammar rejects would
be a `re.compile` error in the source; no keyword produces one.) -/
def keyword_in_text (text keyword : PyStr) : Bool :=
  if text = [] ∨ keyword = [] then false
  else
    let k := pyStrip keyword
    let k_simple := sepSub (reEscape k)
    let pattern :=
      if keyword.any isKwAlpha then ['\\', 'b'] ++ k_simple ++ ['\\', 'b']
      else k_simple
    match parseRegex pattern with
    | some toks => searchToks toks none text
    | none => false

/-! ## Decision-maker keyword table (source lines 91–135) -/

/-- Embeds `DECISION_KEYWORDS`, in the source's (insertion) order. -/
def DECISION_KEYWORDS : List (PyStr × ℚ) :=
  [ (pys "ceo", 10), (pys "chief executive", 10), (pys "chief executive officer", 10),
    (pys "founder", 8), (pys "partner", 6), (pys "co-founder", 7), (pys "cofounder", 7),
    (pys "chairman", 7), (pys "chairwoman", 7), (pys "chair", 5), (pys "president", 8),
    (pys "owner", 6), (pys "managing director", 7), (pys "managing partner", 7),
    (pys "general partner", 6), (pys "principal", 4), (pys "chief operating officer", 7),
    (pys "coo", 6), (pys "chief financial officer", 7), (pys "cfo", 6),
    (pys "chief marketing officer", 6), (pys "cmo", 5), (pys "chief revenue officer", 6),
    (pys "cro", 5), (pys "chief growth officer", 5), (pys "chief commercial officer", 5),
    (pys "chief technology officer", 6), (pys "cto", 5), (pys "chief product officer", 5),
    (pys "cpo", 5), (pys "head of growth", 5), (pys "head of sales", 5),
    (pys "vp of sales", 4), (pys "vp sales", 4), (pys "vp marketing", 4),
    (pys "head of marketing", 4), (pys "head of commercial", 4), (pys "board director", 4),
    (pys "director", 10), (pys "founding partner", 7), (pys "oprichter", 8),
    (pys "mede-oprichter", 7), (pys "directeur", 7) ]

/-! ## URL splitting and joining (`urllib.parse`)

The program uses `urlsplit`, `urlunsplit` and `urljoin` from the standard
library.  They are embedded below following CPython's implementation.
Two simplifications, harmless for every URL the program builds: the
`params` component (split only for a `;` in the last path segment by
`urlparse`) is not modelled, and the `_checknetloc` NFKC check and
bracketed-IPv6 host validation are not modelled (`urlsplitBracketsOk`
captures the mismatched-bracket `ValueError` that the program's
`try/except` blocks guard against). -/

/-- One result of `urlsplit`. -/
structure SplitResult where
  scheme : PyStr
  netloc : PyStr
  path : PyStr
  query : PyStr
  fragment : PyStr
deriving DecidableEq, Repr

/-- RFC 3986 scheme characters as accepted by CPython
(letters, digits, `+`, `-`, `.`). -/
def isSchemeChar (c : Char) : Bool :=
  ('A' ≤ c && c ≤ 'Z') || ('a' ≤ c && c ≤ 'z') || ('0' ≤ c && c ≤ '9') ||
  c = '+' || c = '-' || c = '.'

/-- Embeds `urlsplit(url, scheme=default)`.  Mirrors CPython: strip leading
C0-control/space characters, delete tab/CR/LF, detect an explicit scheme
(first char an ASCII letter, all chars before the first `:` scheme
characters), take the authority after `//` up to `/`/`?`/`#`, then split
off fragment and query (in that order). -/
def isAsciiLetter (c : Char) : Bool :=
  ('A' ≤ c && c ≤ 'Z') || ('a' ≤ c && c ≤ 'z')

def urlsplit (default_scheme url : PyStr) : SplitResult :=
  let url := url.dropWhile (fun c => c.toNat ≤ 0x20)
  let url := url.filter (fun c => ¬ (c = '\t' ∨ c = '\r' ∨ c = '\n'))
  let pre := url.takeWhile (· ≠ ':')
  let schemeFound : Bool :=
    url.contains ':' && pre ≠ [] &&
      (match pre.head? with
       | some c => isAsciiLetter c
       | none => false) &&
      pre.all isSchemeChar
  let scheme : PyStr := if schemeFound then pyLower pre else default_scheme
  let url1 : PyStr := if schemeFound then (url.dropWhile (· ≠ ':')).drop 1 else url
  let hasNetloc : Bool := url1.take 2 = pys "//"
  let netloc : PyStr :=
    if hasNetloc then (url1.drop 2).takeWhile (fun c => ¬ (c = '/' ∨ c = '?' ∨ c = '#'))
    else []
  let url2 : PyStr :=
    if hasNetloc then (url1.drop 2).dropWhile (fun c => ¬ (c = '/' ∨ c = '?' ∨ c = '#'))
    else url1
  let fragment : PyStr := if url2.contains '#' then pyAfterFirst '#' url2 else []
  let url3 : PyStr := if url2.contains '#' then pySplitFirst '#' url2 else url2
  let query : PyStr := if url3.contains '?' then pyAfterFirst '?' url3 else []
  let path : PyStr := if url3.contains '?' then pySplitFirst '?' url3 else url3
  ⟨scheme, netloc, path, query, fragment⟩

/-- The condition under which CPython's `urlsplit` does *not* raise the
"Invalid IPv6 URL" `ValueError`: the authority must not contain exactly
one of `[`, `]`. -/
def urlsplitBracketsOk (url : PyStr) : Bool :=
  let nl := (urlsplit [] url).netloc
  nl.contains '[' = nl.contains ']'

/-- Embeds `urlunsplit`. -/
def urlunsplit (r : SplitResult) : PyStr :=
  let url := r.path
  let url :=
    if r.netloc ≠ [] ∨ url.take 2 = pys "//" then
      pys "//" ++ r.netloc ++
        (if url ≠ [] ∧ url.head? ≠ some '/' then '/' :: url else url)
    else url
  let url := if r.scheme ≠ [] then r.scheme ++ [':'] ++ url else url
  let url := if r.query ≠ [] then url ++ ['?'] ++ r.query else url
  if r.fragment ≠ [] then url ++ ['#'] ++ r.fragment else url

/-- Schemes treated as hierarchical by `urljoin` (`uses_relative`). -/
def uses_relative : List PyStr :=
  [[], pys "ftp", pys "http", pys "gopher", pys "nntp", pys "imap", pys "wais",
   pys "file", pys "https", pys "shttp", pys "mms", pys "prospero", pys "rtsp",
   pys "rtspu", pys "sftp", pys "svn", pys "svn+ssh", pys "ws", pys "wss"]

/-- Schemes that use an authority component (`uses_netloc`). -/
def uses_netloc : List PyStr :=
  [[], pys "ftp", pys "http", pys "gopher", pys "nntp", pys "telnet", pys "imap",
   pys "wais", pys "file", pys "mms", pys "https", pys "shttp", pys "snews",
   pys "prospero", pys "rtsp", pys "rtspu", pys "rsync", pys "svn",
   pys "svn+ssh", pys "sftp", pys "nfs", pys "git", pys "git+ssh", pys "ws",
   pys "wss", pys "itms-services"]

/-- Embeds `segments[1:-1] = filter(None, segments[1:-1])`: drop empty strings
from the middle of the segment list, keeping the first and last entries. -/
def filterMidSegments : List PyStr → List PyStr
  | [] => []
  | x :: rest =>
    match rest.getLast? with
    | none => [x]
    | some last => x :: (rest.dropLast.filter (fun seg => seg ≠ [])) ++ [last]

/-- One step of `urljoin`'s dot-segment resolution loop. -/
def resolveStep (acc : List PyStr) (seg : PyStr) : List PyStr :=
  if seg = pys ".." then acc.dropLast
  else if seg = pys "." then acc
  else acc ++ [seg]

/-- Embeds `urljoin(base, url)` following CPython. -/
def urljoin (base url : PyStr) : PyStr :=
  if base = [] then url
  else if url = [] then base
  else
    let b := urlsplit [] base
    let u := urlsplit b.scheme url
    if u.scheme ≠ b.scheme ∨ u.scheme ∉ uses_relative then url
    else if u.scheme ∈ uses_netloc ∧ u.netloc ≠ [] then urlunsplit u
    else
      let netloc := if u.scheme ∈ uses_netloc then b.netloc else u.netloc
      if u.path = [] then
        urlunsplit ⟨u.scheme, netloc, b.path,
          (if u.query = [] then b.query else u.query), u.fragment⟩
      else
        let base_parts := pySplitAll '/' b.path
        let base_parts :=
          if base_parts.getLast? ≠ some [] then base_parts.dropLast else base_parts
        let segments :=
          if u.path.head? = some '/' then pySplitAll '/' u.path
          else filterMidSegments (base_parts ++ pySplitAll '/' u.path)
        let resolved := segments.foldl resolveStep []
        let resolved :=
          if segments.getLast? = some (pys ".") ∨ segments.getLast? = some (pys "..")
          then resolved ++ [[]] else resolved
        let joined := pyJoin (pys "/") resolved
        urlunsplit ⟨u.scheme, netloc, (if joined = [] then pys "/" else joined),
          u.query, u.fragment⟩

/-! ## Embedding of `normalize_url` (source lines 223–238) and
`_normalize_linkedin` (source lines 815–831) -/

/-- Embeds `re.match(r"^https?://", url, re.I)`: a case-insensitive
`http://` or `https://` prefix. -/
def matchesHttpScheme (s : PyStr) : Bool :=
  pyStartsWith (pyLower s) (pys "http://") ∨ pyStartsWith (pyLower s) (pys "https://")

/-- Embeds `normalize_url` (source lines 223–238): prepend `https://` when no
http(s) scheme is present, reject URLs without an authority or with
mismatched authority brackets (the caught `ValueError`), drop query and
fragment, and ensure a leading slash on a non-empty path. -/
def normalize_url (url : PyStr) : PyStr :=
  if url = [] then []
  else
    let url := pyStrip url
    let url := if matchesHttpScheme url then url else pys "https://" ++ url
    if ¬ urlsplitBracketsOk url then []
    else
      let parts := urlsplit [] url
      if parts.netloc = [] then []
      else
        let cleaned : SplitResult := { parts with fragment := [], query := [] }
        let cleaned :=
          if cleaned.path ≠ [] ∧ cleaned.path.head? ≠ some '/' then
            { cleaned with path := '/' :: cleaned.path }
          else cleaned
        urlunsplit cleaned

/-- The preprocessing `_normalize_linkedin` applies before splitting:
strip, then resolve a protocol-relative `//…` form against `https`. -/
def linkedinPre (url : PyStr) : PyStr :=
  let url := pyStrip url
  if url.take 2 = pys "//" then pys "https:" ++ url else url

/-- Embeds `_normalize_linkedin` (source lines 815–831): keep only URLs whose
authority contains `linkedin.com` (a substring test on the lower-cased
netloc), strip trailing slashes from the path (`re.sub(r"/+$", "", …)`),
ensure a leading slash, and rebuild on the canonical
`https://www.linkedin.com` host. -/
def normalize_linkedin (url : PyStr) : PyStr :=
  if url = [] then []
  else
    let url := linkedinPre url
    if ¬ urlsplitBracketsOk url then []
    else
      let parts := urlsplit [] url
      if ¬ pyContains (pyLower parts.netloc) (pys "linkedin.com") then []
      else
        let path := pyRStripChars (pys "/") parts.path
        let path := if ¬ pyStartsWith path (pys "/") then '/' :: path else path
        urlunsplit ⟨pys "https", pys "www.linkedin.com", path, [], []⟩

/-! ## E-mail cleaning (`clean_email`, source lines 213–220, with
`DEOBFUSCATIONS` lines 78–85 and `EMAIL_RE` line 77) -/

/-- Match, at the head of `s`, the pattern `\s*⟨open⟩\s*⟨word⟩\s*⟨close⟩\s*`
(case-insensitive on the word) and return the number of characters
consumed.  All quantifiers are effectively deterministic here: each
greedy `\s*` is followed by a non-whitespace requirement. -/
def deobBracketHere (opn cls : Char) (word : PyStr) (s : PyStr) : Option Nat :=
  let s1 := s.dropWhile isPySpace
  match s1 with
  | c :: rest =>
    if c = opn then
      let rest1 := rest.dropWhile isPySpace
      if pyLower (rest1.take word.length) = pyLower word then
        let rest2 := (rest1.drop word.length).dropWhile isPySpace
        match rest2 with
        | c2 :: rest3 =>
          if c2 = cls then
            let rest4 := rest3.dropWhile isPySpace
            some (s.length - rest4.length)
          else none
        | [] => none
      else none
    else none
  | [] => none

/-- Match, at the head of `s`, the pattern `\s+⟨word⟩\s+`
(case-insensitive) and return the number of characters consumed. -/
def deobSpacedHere (word : PyStr) (s : PyStr) : Option Nat :=
  match s with
  | c :: _ =>
    if isPySpace c then
      let s1 := s.dropWhile isPySpace
      if pyLower (s1.take word.length) = pyLower word then
        let s2 := s1.drop word.length
        match s2 with
        | c2 :: _ =>
          if isPySpace c2 then some (s.length - (s2.dropWhile isPySpace).length)
          else none
        | [] => none
      else none
    else none
  | [] => none

/-- Fuel-indexed scanning loop for `re.sub` driven by a head-matcher:
scan left to right, replacing each leftmost non-overlapping match with
`repl`.  Every matcher used here consumes at least one character on
success (`max n 1` records that), so each step shortens the string by at
least one character while the fuel drops by exactly one: fuel equal to
the string length never runs out. -/
def subByMatcherGo (matcher : PyStr → Option Nat) (repl : PyStr) :
    Nat → PyStr → PyStr
  | _, [] => []
  | 0, s => s
  | fuel + 1, c :: rest =>
    match matcher (c :: rest) with
    | some n => repl ++ subByMatcherGo matcher repl fuel ((c :: rest).drop (max n 1))
    | none => c :: subByMatcherGo matcher repl fuel rest

/-- Embeds `re.sub` driven by a head-matcher. -/
def subByMatcher (matcher : PyStr → Option Nat) (repl : PyStr) (s : PyStr) : PyStr :=
  subByMatcherGo matcher repl s.length s

/-- The six `DEOBFUSCATIONS` substitutions, in the source's order:
`[at]`, `(at)`, ` at ` → `@` and `[dot]`, `(dot)`, ` dot ` → `.`. -/
def applyDeobfuscations (s : PyStr) : PyStr :=
  let s := subByMatcher (deobBracketHere '[' ']' (pys "at")) (pys "@") s
  let s := subByMatcher (deobBracketHere '(' ')' (pys "at")) (pys "@") s
  let s := subByMatcher (deobSpacedHere (pys "at")) (pys "@") s
  let s := subByMatcher (deobBracketHere '[' ']' (pys "dot")) (pys ".") s
  let s := subByMatcher (deobBracketHere '(' ')' (pys "dot")) (pys ".") s
  subByMatcher (deobSpacedHere (pys "dot")) (pys ".") s

/-- Characters of `EMAIL_RE`'s local part `[A-Z0-9._%+\-]` (with `re.I`). -/
def emailLocalChar (c : Char) : Bool :=
  ('A' ≤ c && c ≤ 'Z') || ('a' ≤ c && c ≤ 'z') || ('0' ≤ c && c ≤ '9') ||
  c = '.' || c = '_' || c = '%' || c = '+' || c = '-'

/-- Characters of `EMAIL_RE`'s domain part `[A-Z0-9.-]` (with `re.I`). -/
def emailDomainChar (c : Char) : Bool :=
  ('A' ≤ c && c ≤ 'Z') || ('a' ≤ c && c ≤ 'z') || ('0' ≤ c && c ≤ '9') ||
  c = '.' || c = '-'

/-- Within the domain run `d`, find the backtracking split the regex
engine picks for `…\.[A-Z]{2,}`: the *rightmost* dot that is preceded by
at least one domain character and followed by at least two letters; the
trailing `[A-Z]{2,}` is greedy.  Returns the matched domain text. -/
def emailDomainSplit (d : PyStr) : Option PyStr :=
  (List.range d.length).reverse.findSome? fun m =>
    if 1 ≤ m ∧ d.get? m = some '.' then
      let tld := (d.drop (m + 1)).takeWhile isAsciiLetter
      if 2 ≤ tld.length then some (d.take m ++ ['.'] ++ tld) else none
    else none

/-- Try to match `EMAIL_RE` at the head of `s`; return the matched text.
The greedy `+` runs cannot backtrack past the fixed `@` (not in either
class), so the match is the maximal local run, `@`, and the best domain
split. -/
def emailMatchHere (s : PyStr) : Option PyStr :=
  let lcl := s.takeWhile emailLocalChar
  if lcl = [] then none
  else
    match s.drop lcl.length with
    | '@' :: rest =>
      let dom := rest.takeWhile emailDomainChar
      match emailDomainSplit dom with
      | some d => some (lcl ++ ['@'] ++ d)
      | none => none
    | _ => none

/-- Embeds `EMAIL_RE.search`: the leftmost match, scanning start positions left
to right. -/
def emailSearch : PyStr → Option PyStr
  | [] => none
  | c :: rest =>
    match emailMatchHere (c :: rest) with
    | some m => some m
    | none => emailSearch rest

/-- Embeds `clean_email` (source lines 213–220): de-obfuscate, then return the
first `EMAIL_RE` match, or the empty string. -/
def clean_email (value : PyStr) : PyStr :=
  if value = [] then []
  else
    match emailSearch (applyDeobfuscations value) with
    | some m => m
    | none => []

/-! ## Name-shape test (`NAME_RE` line 87, `is_name_like` lines 241–247) -/

/-- First-character class of `NAME_RE`: `[A-ZÀ-ÖØ-Ý]`. -/
def nameUpperChar (c : Char) : Bool :=
  ('A' ≤ c && c ≤ 'Z') || (0xC0 ≤ c.toNat && c.toNat ≤ 0xD6) ||
  (0xD8 ≤ c.toNat && c.toNat ≤ 0xDD)

/-- Continuation class of `NAME_RE`: `[\wÀ-ÖØ-öø-ÿ'' -]` (word characters,
the accented Latin ranges, apostrophe, space, hyphen). -/
def nameClassChar (c : Char) : Bool :=
  isWordChar c || c = '\'' || c = ' ' || c = '-'

/-- Embeds `NAME_RE.fullmatch(v)`.  The pattern is
`[A-ZÀ-ÖØ-Ý][\wÀ-ÖØ-öø-ÿ'' -]+(?: [A-ZÀ-ÖØ-Ý][\wÀ-ÖØ-öø-ÿ'' -]+){0,3}`;
since every character the optional groups can match (space, the upper
class, the continuation class) already lies in the continuation class,
a full match exists exactly when the first character is in the upper
class and at least one further character follows, all from the
continuation class. -/
def nameFullmatch (v : PyStr) : Bool :=
  match v with
  | [] => false
  | c :: rest => nameUpperChar c && rest ≠ [] && rest.all nameClassChar

/-- Embeds `is_name_like` (source lines 241–247). -/
def is_name_like (value : PyStr) : Bool :=
  if value = [] then false
  else
    let v := pyStrip value
    if v.length < 2 ∨ 120 < v.length then false
    else nameFullmatch v

/-! ## Embedding of `unescape_js_string` (source lines 254–262) -/

/-- Replace every (non-overlapping, leftmost) occurrence of the
non-empty `pat` in `s` by `repl` (Python `str.replace`). -/
def pyReplace (pat repl : PyStr) (s : PyStr) : PyStr :=
  subByMatcher
    (fun t => if pat ≠ [] ∧ t.take pat.length = pat then some pat.length else none)
    repl s

/-- A hexadecimal digit's value. -/
def hexVal (c : Char) : Option Nat :=
  if '0' ≤ c ∧ c ≤ '9' then some (c.toNat - '0'.toNat)
  else if 'a' ≤ c ∧ c ≤ 'f' then some (c.toNat - 'a'.toNat + 10)
  else if 'A' ≤ c ∧ c ≤ 'F' then some (c.toNat - 'A'.toNat + 10)
  else none

/-- An octal digit's value. -/
def octVal (c : Char) : Option Nat :=
  if '0' ≤ c ∧ c ≤ '7' then some (c.toNat - '0'.toNat) else none

/-- Read exactly `n` hex digits; fail otherwise. -/
def readHexN : Nat → PyStr → Option (Nat × PyStr)
  | 0, s => some (0, s)
  | _ + 1, [] => none
  | n + 1, c :: rest =>
    match hexVal c, readHexN n rest with
    | some d, some (v, rest') => some (d * 16 ^ n + v, rest')
    | _, _ => none

/-- Encode a character as UTF-8 bytes viewed as Latin-1 characters
(this is what `bytes(s, "utf-8").decode("unicode_escape")` sees, the
`decode` reading each byte as a Latin-1 code point). -/
def utf8Bytes (c : Char) : List Nat :=
  let n := c.toNat
  if n < 0x80 then [n]
  else if n < 0x800 then [0xC0 + n / 64, 0x80 + n % 64]
  else if n < 0x10000 then [0xE0 + n / 4096, 0x80 + (n / 64) % 64, 0x80 + n % 64]
  else [0xF0 + n / 262144, 0x80 + (n / 4096) % 64, 0x80 + (n / 64) % 64, 0x80 + n % 64]

/-- View a string as its UTF-8 byte sequence, each byte a Latin-1 char. -/
def toLatin1View (s : PyStr) : PyStr :=
  s.flatMap (fun c => (utf8Bytes c).map Char.ofNat)

/-- Embeds `unicode_escape` decoding of a byte string (bytes as Latin-1 chars).
Handles the standard escapes, octal, `\xhh`, `\uXXXX`, `\UXXXXXXXX`, and
line continuation; an unknown escape keeps the backslash and character
(as CPython does, with a warning); a malformed `\x`/`\u`/`\U`, a `\N`
named escape (whose name database is not modelled) or a trailing
backslash fails, which the caller's `except` turns into the identity.
The loop is fuel-indexed for structural recursion: every step consumes
at least one character while the fuel drops by one, so fuel equal to the
input length never runs out. -/
def unicodeEscapeGo : Nat → PyStr → Option PyStr
  | _, [] => some []
  | 0, _ => none
  | fuel + 1, '\\' :: rest =>
    match rest with
    | [] => none
    | 'n' :: r => (unicodeEscapeGo fuel r).map ('\n' :: ·)
    | 't' :: r => (unicodeEscapeGo fuel r).map ('\t' :: ·)
    | 'r' :: r => (unicodeEscapeGo fuel r).map ('\r' :: ·)
    | '\\' :: r => (unicodeEscapeGo fuel r).map ('\\' :: ·)
    | '\'' :: r => (unicodeEscapeGo fuel r).map ('\'' :: ·)
    | '"' :: r => (unicodeEscapeGo fuel r).map ('"' :: ·)
    | 'a' :: r => (unicodeEscapeGo fuel r).map (Char.ofNat 7 :: ·)
    | 'b' :: r => (unicodeEscapeGo fuel r).map (Char.ofNat 8 :: ·)
    | 'f' :: r => (unicodeEscapeGo fuel r).map (Char.ofNat 12 :: ·)
    | 'v' :: r => (unicodeEscapeGo fuel r).map (Char.ofNat 11 :: ·)
    | '\n' :: r => unicodeEscapeGo fuel r
    | 'x' :: a :: b :: r =>
      match hexVal a, hexVal b with
      | some x, some y => (unicodeEscapeGo fuel r).map (Char.ofNat (x * 16 + y) :: ·)
      | _, _ => none
    | 'x' :: _ => none
    | 'u' :: a :: b :: c :: d :: r =>
      match hexVal a, hexVal b, hexVal c, hexVal d with
      | some w, some x, some y, some z =>
        (unicodeEscapeGo fuel r).map (Char.ofNat (((w * 16 + x) * 16 + y) * 16 + z) :: ·)
      | _, _, _, _ => none
    | 'u' :: _ => none
    | 'U' :: a :: b :: c :: d :: e :: f :: g :: k :: r =>
      match readHexN 8 [a, b, c, d, e, f, g, k] with
      | some (v, _) =>
        if v ≤ 0x10FFFF then (unicodeEscapeGo fuel r).map (Char.ofNat v :: ·)
        else none
      | none => none
    | 'U' :: _ => none
    | 'N' :: _ => none
    | c :: r =>
      match octVal c with
      | some d1 =>
        let ds := (r.take 2).takeWhile (fun x => (octVal x).isSome)
        let v := ds.foldl (fun acc x => acc * 8 + (octVal x).getD 0) d1
        (unicodeEscapeGo fuel (r.drop ds.length)).map (Char.ofNat v :: ·)
      | none => (unicodeEscapeGo fuel r).map (fun t => '\\' :: c :: t)
  | fuel + 1, c :: rest => (unicodeEscapeGo fuel rest).map (c :: ·)

/-- Embeds `unicode_escape` decoding of a whole byte string. -/
def unicodeEscapeDecode (s : PyStr) : Option PyStr := unicodeEscapeGo s.length s

/-- Embeds `unescape_js_string` (source lines 254–262): turn `\/` into `/`,
attempt a `unicode_escape` round-trip through UTF-8 (falling back to the
input when decoding raises), and strip. -/
def unescape_js_string (value : PyStr) : PyStr :=
  if value = [] then []
  else
    let cleaned := pyReplace (pys "\\/") (pys "/") value
    let cleaned :=
      match unicodeEscapeDecode (toLatin1View cleaned) with
      | some s => s
      | none => cleaned
    pyStrip cleaned

/-! ## Data model (`PersonCandidate` lines 158–177,
`SiteScanResult` lines 180–207) -/

/-- Embeds `PersonCandidate` (source lines 158–177). -/
structure PersonCandidate where
  name : PyStr := []
  title : PyStr := []
  linkedin : PyStr := []
  email : PyStr := []
  source_url : PyStr := []
  score : ℚ := 0
  rank_reason : PyStr := []
deriving DecidableEq, Repr

/-- Embeds `PersonCandidate.is_reasonable` (lines 168–169): at least one of
name/title/linkedin/email is non-empty (Python truthiness of `or`). -/
def PersonCandidate.is_reasonable (p : PersonCandidate) : Bool :=
  p.name ≠ [] || p.title ≠ [] || p.linkedin ≠ [] || p.email ≠ []

/-- Embeds `PersonCandidate.key` (lines 171–177): the identity 4-tuple of
trimmed, lower-cased name, title, linkedin, email. -/
def PersonCandidate.key (p : PersonCandidate) : PyStr × PyStr × PyStr × PyStr :=
  (pyLower (pyStrip p.name), pyLower (pyStrip p.title),
   pyLower (pyStrip p.linkedin), pyLower (pyStrip p.email))

/-- Embeds `SiteScanResult` (source lines 180–207).  The `meta` dictionary is
modelled by its two counters; both are `0` when `meta` was never set. -/
structure SiteScanResult where
  website : PyStr
  normalized_url : PyStr := []
  team_pages : List PyStr := []
  people : List PersonCandidate := []
  decision_makers : List PersonCandidate := []
  errors : List PyStr := []
  people_examined : Nat := 0
  pages_scanned : Int := 0
deriving DecidableEq, Repr

/-! ## Identity deduplication

The same merge loop appears twice in the source: at the end of
`_extract_people_from_html` (lines 744–760) and in `scan_site`
(lines 925–941).  For a colliding key the first-seen record is kept and
each of `source_url`, `title`, `linkedin`, `email` is backfilled from the
later duplicate only when currently empty. -/

/-- Backfill the empty fields of the retained record `e` from a later
duplicate `p`. -/
def mergeInto (e p : PersonCandidate) : PersonCandidate :=
  { e with
    source_url := if e.source_url = [] ∧ p.source_url ≠ [] then p.source_url else e.source_url,
    title := if e.title = [] ∧ p.title ≠ [] then p.title else e.title,
    linkedin := if e.linkedin = [] ∧ p.linkedin ≠ [] then p.linkedin else e.linkedin,
    email := if e.email = [] ∧ p.email ≠ [] then p.email else e.email }

/-- Process one raw record against the insertion-ordered merged list
(Python's insertion-ordered `dict`; at most one entry ever has the key). -/
def dedupInsert (acc : List PersonCandidate) (p : PersonCandidate) : List PersonCandidate :=
  if acc.any (fun e => e.key = p.key) then
    acc.map (fun e => if e.key = p.key then mergeInto e p else e)
  else acc ++ [p]

/-- The full merge loop over a raw record list. -/
def dedup_people (l : List PersonCandidate) : List PersonCandidate :=
  l.foldl dedupInsert []

/-! ## Scoring (`_score_person`, source lines 834–870) -/

/-- The keyword-table term: the sum of weights of keywords matching the
lower-cased title. -/
def keyword_score (title_lower : PyStr) : ℚ :=
  DECISION_KEYWORDS.foldl
    (fun acc kw => if keyword_in_text title_lower kw.1 then acc + kw.2 else acc) 0

/-- Embeds `+2 if "chief" in title_lower`. -/
def chief_bonus (title_lower : PyStr) : ℚ :=
  if pyContains title_lower (pys "chief") then 2 else 0

/-- Embeds `+1` for a `vp` word that is not accompanied by `vice`. -/
def vp_bonus (title_lower : PyStr) : ℚ :=
  if keyword_in_text title_lower (pys "vp") ∧ ¬ pyContains title_lower (pys "vice")
  then 1 else 0

/-- Embeds `+1.5` per non-empty contact field. -/
def contact_bonus (fieldVal : PyStr) : ℚ :=
  if fieldVal ≠ [] then 3 / 2 else 0

/-- Embeds `+0.5` when the source page's path mentions a people keyword.
(The source guards the `urlsplit` with `try/except`; the split itself is
total here, and the caught `ValueError` cases do not arise for the URLs
the program constructs.) -/
def source_bonus (source_url : PyStr) : ℚ :=
  let path := pyLower (urlsplit [] source_url).path
  if [pys "team", pys "people", pys "about", pys "over-ons",
      pys "leadership", pys "management"].any (fun k => pyContains path k)
  then 1 / 2 else 0

/-- The score `_score_person` assigns: the additive terms of
source lines 835–857 in order. -/
def score_value (p : PersonCandidate) : ℚ :=
  keyword_score (pyLower p.title) + chief_bonus (pyLower p.title) +
    vp_bonus (pyLower p.title) + contact_bonus p.linkedin + contact_bonus p.email +
    source_bonus p.source_url

/-- The `rank_reason` string `_score_person` assigns (lines 859–869):
`email` and `linkedin` flags followed by the first three matching
keywords, comma-joined. -/
def rank_reason_value (p : PersonCandidate) : PyStr :=
  let title_lower := pyLower p.title
  let parts :=
    (if p.email ≠ [] then [pys "email"] else []) ++
    (if p.linkedin ≠ [] then [pys "linkedin"] else [])
  let keywords_hit :=
    (DECISION_KEYWORDS.map Prod.fst).filter (fun k => keyword_in_text title_lower k)
  let parts := parts ++ (if keywords_hit ≠ [] then keywords_hit.take 3 else [])
  pyJoin (pys ", ") parts

/-- Embeds `_score_person` (source lines 834–870): fill in `score` and
`rank_reason`.  (The source mutates and returns its argument; the
computed values depend only on the non-score fields.) -/
def score_person (p : PersonCandidate) : PersonCandidate :=
  { p with score := score_value p, rank_reason := rank_reason_value p }

/-! ## Selection (`_select_decision_makers`, source lines 872–887) -/

/-- Stable descending insertion by score: the new element goes after
every existing element of greater-or-equal score.  This reproduces
Python's stable `list.sort(key=…, reverse=True)`. -/
def insertDesc (p : PersonCandidate) : List PersonCandidate → List PersonCandidate
  | [] => [p]
  | q :: qs => if p.score ≤ q.score then q :: insertDesc p qs else p :: q :: qs

/-- Stable sort by score, descending. -/
def sortDesc (l : List PersonCandidate) : List PersonCandidate :=
  l.foldl (fun acc p => insertDesc p acc) []

/-- The admission loop of `_select_decision_makers` (lines 876–881):
stop when `limit` records are admitted; admit on score ≥ 3.0, or ≥ 1.5
for the very first admission. -/
def selLoop (limit : Int) : List PersonCandidate → List PersonCandidate → List PersonCandidate
  | [], sel => sel
  | p :: rest, sel =>
    if limit ≤ (sel.length : Int) then sel
    else if 3 ≤ p.score ∨ (sel = [] ∧ 3 / 2 ≤ p.score) then selLoop limit rest (sel ++ [p])
    else selLoop limit rest sel

/-- The fallback tagging of lines 884–886:
`(rank_reason + ", fallback").strip(", ")`. -/
def apply_fallback (p : PersonCandidate) : PersonCandidate :=
  { p with rank_reason := pyStripChars (pys ", ") (p.rank_reason ++ pys ", fallback") }

/-- Embeds `_select_decision_makers` (source lines 872–887). -/
def select_decision_makers (limit : Int) (people : List PersonCandidate) : List PersonCandidate :=
  let scored := sortDesc (people.map score_person)
  let selected := selLoop limit scored []
  if selected = [] then
    match scored with
    | [] => selected
    | top :: _ => [apply_fallback top]
  else selected

/-! ## Script-payload extraction
(`_find_script_field` lines 370–385,
`_extract_people_from_script_text` lines 387–434)

Both scan for the pattern `["\']?key["\']?\s*:\s*(["\'`])(.+?)\1`
(flags `re.I | re.S`).  For the keys used (all alphanumeric,
`re.escape(key) = key`) every optional/greedy piece of the pattern is
deterministic — each fallback alternative fails immediately — and the
lazy group captures up to the first recurrence of the opening quote. -/

/-- Try to match the key/value pattern at the head of `s`.  Returns the
captured group text and the number of characters the whole match
consumed (always positive). -/
def kvMatchHere (key : PyStr) (s : PyStr) : Option (PyStr × Nat) :=
  let s1 := match s with
    | c :: rest => if c = '"' ∨ c = '\'' then rest else s
    | [] => s
  if pyLower (s1.take key.length) = pyLower key then
    let s2 := s1.drop key.length
    let s3 := match s2 with
      | c :: rest => if c = '"' ∨ c = '\'' then rest else s2
      | [] => s2
    let s4 := s3.dropWhile isPySpace
    match s4 with
    | ':' :: s5 =>
      let s6 := s5.dropWhile isPySpace
      match s6 with
      | q :: content =>
        if q = '"' ∨ q = '\'' ∨ q = '`' then
          match content with
          | c0 :: tail =>
            if tail.contains q then
              let grp := c0 :: tail.takeWhile (· ≠ q)
              let consumed := s.length - (tail.dropWhile (· ≠ q)).length + 1
              some (grp, consumed)
            else none
          | [] => none
        else none
      | [] => none
    | _ => none
  else none

/-- A match of the name field with its position data:
start index, end index (one past the match) and the captured group. -/
structure KVHit where
  startIdx : Nat
  endIdx : Nat
  group2 : PyStr
deriving DecidableEq, Repr

/-- Fuel-indexed `finditer` loop: successive leftmost non-overlapping
matches, resuming after each match's end.  A match always consumes at
least one character (`max n 1` records that), so each step shortens the
string while the fuel drops by one: fuel equal to the string length
never runs out. -/
def kvFindIterGo (key : PyStr) : Nat → PyStr → Nat → List KVHit
  | _, [], _ => []
  | 0, _, _ => []
  | fuel + 1, c :: rest, idx =>
    match kvMatchHere key (c :: rest) with
    | some (g, n) =>
      let n := max n 1
      ⟨idx, idx + n, g⟩ :: kvFindIterGo key fuel ((c :: rest).drop n) (idx + n)
    | none => kvFindIterGo key fuel rest (idx + 1)

/-- Embeds `finditer` for the key/value pattern over a whole string. -/
def kvFindIter (key : PyStr) (s : PyStr) (idx : Nat) : List KVHit :=
  kvFindIterGo key s.length s idx

/-- Embeds `re.search` for the key/value pattern: the first match's group. -/
def kvSearch (key : PyStr) (s : PyStr) : Option PyStr :=
  match kvFindIter key s 0 with
  | [] => none
  | hit :: _ => some hit.group2

/-- Scanning loop collapsing whitespace runs to single spaces
(`re.sub(r"\s+", " ", v)`); the flag records whether the previous
character belonged to the current whitespace run. -/
def collapseWsGo : Bool → PyStr → PyStr
  | _, [] => []
  | inRun, c :: rest =>
    if isPySpace c then
      if inRun then collapseWsGo true rest else ' ' :: collapseWsGo true rest
    else c :: collapseWsGo false rest

/-- Collapse whitespace runs to single spaces (`re.sub(r"\s+", " ", v)`). -/
def collapseWs (s : PyStr) : PyStr := collapseWsGo false s

/-- Embeds `_find_script_field` (source lines 370–385): the first key whose
pattern matches with a non-empty cleaned value wins. -/
def find_script_field (chunk : PyStr) (keys : List PyStr) : PyStr :=
  match keys with
  | [] => []
  | key :: rest =>
    match kvSearch key chunk with
    | some g =>
      let value := pyStrip (collapseWs (unescape_js_string g))
      if value ≠ [] then value else find_script_field chunk rest
    | none => find_script_field chunk rest

/-- Embeds `_extract_people_from_script_text` (source lines 387–434): for each
name-field match whose unescaped value passes the name test, read
title/profile/email fields from the window reaching 50 characters before
the match to the first `}` after it (or 400 characters past the match
end), and keep the record if any of the three was found. -/
def extract_people_from_script_text (script_text source_url base_url : PyStr) :
    List PersonCandidate :=
  if script_text = [] then []
  else
    (kvFindIter (pys "name") script_text 0).filterMap fun hit =>
      let name := pyStrip (unescape_js_string hit.group2)
      if ¬ is_name_like name then none
      else
        let afterEnd := script_text.drop hit.endIdx
        let brace_end :=
          if afterEnd.contains '}' then
            hit.endIdx + (afterEnd.takeWhile (· ≠ '}')).length
          else min script_text.length (hit.endIdx + 400)
        let chunk := (script_text.take (brace_end + 1)).drop (hit.startIdx - 50)
        let title := find_script_field chunk [pys "position", pys "title", pys "role"]
        let linkedin_raw :=
          find_script_field chunk [pys "linkedin", pys "linkedinUrl", pys "profile"]
        let email_raw := find_script_field chunk [pys "email", pys "mail"]
        let linkedin := normalize_linkedin (urljoin base_url linkedin_raw)
        let email := clean_email email_raw
        if title = [] ∧ linkedin = [] ∧ email = [] then none
        else some { name := name, title := title, linkedin := linkedin,
                    email := email, source_url := source_url }

/-! ## Page-level extraction (`_extract_people_from_html`, lines 511–760)

Strategies 1–5 walk the BeautifulSoup document tree and funnel every
record they find through the local `add_person` helper (lines 521–530);
strategy 6 appends the script-scanner output (line 742).  The tree walk
itself belongs to the external HTML parser, so a fetched page is
modelled by the `add_person` argument tuples the walk produces
(in document order) together with the script texts the script scanner
collects; everything from `add_person` on is embedded from the source. -/

/-- One `add_person(name, title, linkedin, email)` invocation's
arguments, as produced by extraction strategies 1–5. -/
structure RawPersonArgs where
  name : PyStr := []
  title : PyStr := []
  linkedin : PyStr := []
  email : PyStr := []
deriving DecidableEq, Repr

/-- Embeds `add_person` (source lines 521–530): trim the texts, canonicalize
the contact fields, and keep the record only if `is_reasonable`. -/
def add_person (base_url : PyStr) (r : RawPersonArgs) : Option PersonCandidate :=
  let candidate : PersonCandidate :=
    { name := pyStrip r.name, title := pyStrip r.title,
      linkedin := normalize_linkedin r.linkedin, email := clean_email r.email,
      source_url := base_url }
  if candidate.is_reasonable then some candidate else none

/-- A fetched page as the string-processing core sees it: the final URL
(after redirects), the `(href, text)` anchor pairs (for discovery), the
`add_person` calls of strategies 1–5, and the `(text, origin)` script
payloads of strategy 6. -/
structure FetchedPage where
  url : PyStr
  anchors : List (PyStr × PyStr) := []
  rawPeople : List RawPersonArgs := []
  scriptTexts : List (PyStr × PyStr) := []

/-- Embeds `_extract_people_from_html` (source lines 511–760): strategies 1–5
through `add_person`, then the script scanner, then the page-level merge
loop. -/
def extract_people_from_html (rawPeople : List RawPersonArgs)
    (scriptTexts : List (PyStr × PyStr)) (base_url : PyStr) : List PersonCandidate :=
  let people := rawPeople.filterMap (add_person base_url)
  let people := people ++
    (scriptTexts.map fun st => extract_people_from_script_text st.1 st.2 base_url).flatten
  dedup_people people

/-! ## Page discovery (`discover_team_pages`, source lines 468–508) -/

/-- Embeds `LIKELY_TEAM_PATHS` (source lines 45–62). -/
def LIKELY_TEAM_PATHS : List PyStr :=
  [pys "/team", pys "/teams", pys "/people", pys "/leadership", pys "/our-team",
   pys "/company/team", pys "/about", pys "/about-us", pys "/about/team",
   pys "/management", pys "/who-we-are", pys "/board", pys "/crew", pys "/company",
   pys "/partners", pys "/over-ons"]

/-- A sequence of literal tokens wrapped in `\b … \b`. -/
def wordAlt (w : String) : List RTok :=
  [.once .wordB] ++ w.data.map (fun c => RTok.once (.lit c)) ++ [.once .wordB]

/-- Embeds `TEAM_ANCHOR_HINT` (source lines 64–68): the alternation
`\b(team|people|leadership|management|board|partners|crew|about|
ons[-\s]?team|over[-\s]?ons|wie\s+zijn\s+wij|organisatie)\b`, encoded as
one token list per alternative (the outer `\b`s distribute over the
alternatives, which all start and end with word characters; the optional
`[-\s]?` separators become the `opt` quantifier, `\s+` becomes `plus`). -/
def TEAM_ANCHOR_ALTS : List (List RTok) :=
  [wordAlt "team", wordAlt "people", wordAlt "leadership", wordAlt "management",
   wordAlt "board", wordAlt "partners", wordAlt "crew", wordAlt "about",
   [.once .wordB] ++ (pys "ons").map (fun c => RTok.once (.lit c)) ++
     [.opt (.cls ['-'] true)] ++ (pys "team").map (fun c => RTok.once (.lit c)) ++
     [.once .wordB],
   [.once .wordB] ++ (pys "over").map (fun c => RTok.once (.lit c)) ++
     [.opt (.cls ['-'] true)] ++ (pys "ons").map (fun c => RTok.once (.lit c)) ++
     [.once .wordB],
   [.once .wordB] ++ (pys "wie").map (fun c => RTok.once (.lit c)) ++
     [.plus (.cls [] true)] ++ (pys "zijn").map (fun c => RTok.once (.lit c)) ++
     [.plus (.cls [] true)] ++ (pys "wij").map (fun c => RTok.once (.lit c)) ++
     [.once .wordB],
   wordAlt "organisatie"]

/-- Embeds `TEAM_ANCHOR_HINT.search` (case-insensitive). -/
def team_anchor_hint (s : PyStr) : Bool :=
  TEAM_ANCHOR_ALTS.any (fun toks => searchToks toks none s)

/-- The `_strip_www` helper of `discover_team_pages` (lines 480–482). -/
def strip_www (h : PyStr) : PyStr :=
  let h := pyLower h
  if pyStartsWith h (pys "www.") then h.drop 4 else h

/-- Per-candidate cleaning of the final loop (line 502):
`candidate.split("#", 1)[0].rstrip("/")`. -/
def cleanCandidate (c : PyStr) : PyStr :=
  pyRStripChars (pys "/") (pySplitFirst '#' c)

/-- The final dedup/truncate loop of `discover_team_pages`
(lines 499–508): keep non-empty unseen cleaned candidates in first-seen
order, breaking once `max_pages` entries are collected. -/
def cleanCandidatesLoop (max_pages : Int) :
    List PyStr → List PyStr → List PyStr → List PyStr
  | [], _, acc => acc
  | c :: rest, seen, acc =>
    let c := cleanCandidate c
    if c ≠ [] ∧ c ∉ seen then
      if max_pages ≤ ((acc ++ [c]).length : Int) then acc ++ [c]
      else cleanCandidatesLoop max_pages rest (c :: seen) (acc ++ [c])
    else cleanCandidatesLoop max_pages rest seen acc

/-- The candidate list `discover_team_pages` assembles before cleaning
(lines 469–497): the scheme-root (slash-stripped), the likely team
paths joined onto the root, and — when the home page fetch succeeds —
every same-host anchor (ignoring a leading `www.` label) whose href or
visible text matches the people-page pattern. -/
def assemble_candidates (fetch : PyStr → Option FetchedPage) (base_url : PyStr) :
    List PyStr :=
  let parts := urlsplit [] base_url
  let root := parts.scheme ++ pys "://" ++ parts.netloc
  let candidates := [pyRStripChars (pys "/") root] ++
    LIKELY_TEAM_PATHS.map (fun p => urljoin root p)
  candidates ++
    match fetch (root ++ pys "/") with
    | none => []
    | some homepage =>
      let home_netloc := strip_www (urlsplit [] homepage.url).netloc
      homepage.anchors.filterMap fun a =>
        let href := pyStrip a.1
        let full := urljoin homepage.url href
        let full_netloc := strip_www (urlsplit [] full).netloc
        if full_netloc = home_netloc ∧ (team_anchor_hint href ∨ team_anchor_hint a.2)
        then some full else none

/-- Embeds `discover_team_pages` (source lines 468–508). -/
def discover_team_pages (fetch : PyStr → Option FetchedPage) (max_pages : Int)
    (base_url : PyStr) : List PyStr :=
  cleanCandidatesLoop max_pages (assemble_candidates fetch base_url) [] []

/-! ## Orchestration (`scan_site`, source lines 890–947) -/

/-- The page loop of `scan_site` (lines 907–919): spend the page budget
in candidate order, extracting from each page that fetches.  Returns the
number of pages examined and the concatenated raw records. -/
def scanPagesLoop (fetch : PyStr → Option FetchedPage) (max_pages : Int) :
    List PyStr → Int → List PersonCandidate → Int × List PersonCandidate
  | [], searched, acc => (searched, acc)
  | page_url :: rest, searched, acc =>
    if max_pages ≤ searched then (searched, acc)
    else
      match fetch page_url with
      | none => scanPagesLoop fetch max_pages rest (searched + 1) acc
      | some page =>
        scanPagesLoop fetch max_pages rest (searched + 1)
          (acc ++ extract_people_from_html page.rawPeople page.scriptTexts page.url)

/-- Embeds `scan_site` (source lines 890–947).  The `fetch` oracle stands for
`_fetch` (network + status/content-type/size filtering); `none` is any
failed fetch.  Scoring the deduplicated people in place and then
selecting decision-makers from the same list commute here because
`score_person` depends only on the non-score fields. -/
def scan_site (fetch : PyStr → Option FetchedPage) (max_pages decision_limit : Int)
    (website : PyStr) : SiteScanResult :=
  let normalized := normalize_url website
  if normalized = [] then { website := website, errors := [pys "invalid_url"] }
  else
    let candidate_pages := discover_team_pages fetch max_pages normalized
    if candidate_pages = [] then
      { website := website, normalized_url := normalized,
        errors := [pys "no_candidate_pages"] }
    else
      let res := scanPagesLoop fetch max_pages candidate_pages 0 []
      if res.2 = [] then
        { website := website, normalized_url := normalized,
          team_pages := candidate_pages, errors := [pys "no_people_found"] }
      else
        let unique_people := dedup_people res.2
        { website := website, normalized_url := normalized,
          team_pages := candidate_pages,
          people := sortDesc (unique_people.map score_person),
          decision_makers := select_decision_makers decision_limit unique_people,
          errors := [],
          people_examined := unique_people.length,
          pages_scanned := res.1 }

/-! ## Concrete fixtures used by the theorems below -/

/-- A fetcher for which every request fails (`_fetch` returning `None`,
e.g. an unreachable site). -/
def fetchNone : PyStr → Option FetchedPage := fun _ => none

/-- A raw "Jane Doe" record carrying only a title. -/
def janeTitleOnly : PersonCandidate := { name := pys "Jane Doe", title := pys "CEO" }

/-- A raw "Jane Doe" record carrying only an email. -/
def janeEmailOnly : PersonCandidate := { name := pys "Jane Doe", email := pys "jane@x.com" }

/-- The spec's scenario record: title
"Jane Doe — Chief Executive Officer" with both contact fields present. -/
def janeCeo : PersonCandidate :=
  { name := pys "Jane Doe", title := pys "Jane Doe — Chief Executive Officer",
    linkedin := pys "https://www.linkedin.com/in/jane-doe",
    email := pys "jane@example.com" }

/-! ## Helper lemmas -/

theorem charToNat_ofNat (n : Nat) (h : n < 0xD800) : (Char.ofNat n).toNat = n := by
  unfold Char.ofNat
  rw [dif_pos (Or.inl h)]
  rfl

theorem pyLowerChar_cases (a : Char) :
    pyLowerChar a = a ∨
      ((pyLowerChar a).toNat = a.toNat + 32 ∧ 65 ≤ a.toNat ∧ a.toNat ≤ 0xDE) := by
  unfold pyLowerChar
  split_ifs with h1 h2
  · right
    have hl : 65 ≤ a.toNat := h1.1
    have hr : a.toNat ≤ 90 := h1.2
    exact ⟨charToNat_ofNat _ (by omega), by omega, by omega⟩
  · right
    exact ⟨charToNat_ofNat _ (by omega), by omega, by omega⟩
  · left; rfl

theorem pyLowerChar_scheme_ne (a : Char) (h : isSchemeChar a = true) :
    pyLowerChar a ≠ '#' ∧ pyLowerChar a ≠ '/' := by
  rcases pyLowerChar_cases a with hc | ⟨hc, hge, _⟩
  · rw [hc]
    constructor <;> rintro rfl <;> simp [isSchemeChar] at h
  · constructor <;> intro heq
    · have : (pyLowerChar a).toNat = 35 := by rw [heq]; rfl
      omega
    · have : (pyLowerChar a).toNat = 47 := by rw [heq]; rfl
      omega

theorem mem_dropWhile_of_not {p : Char → Bool} {l : PyStr} {x : Char}
    (hx : x ∈ l) (hp : p x = false) : x ∈ l.dropWhile p := by
  induction l with
  | nil => cases hx
  | cons y ys ih =>
    rw [List.dropWhile_cons]
    rcases List.mem_cons.mp hx with rfl | hmem
    · simp [hp]
    · split
      · exact ih hmem
      · exact List.mem_cons_of_mem y hmem

theorem mem_dropEndWhile_of_not {p : Char → Bool} {l : PyStr} {x : Char}
    (hx : x ∈ l) (hp : p x = false) : x ∈ dropEndWhile p l := by
  unfold dropEndWhile
  rw [List.mem_reverse]
  exact mem_dropWhile_of_not (List.mem_reverse.mpr hx) hp

theorem dropWhile_append_stops {p : Char → Bool} (a : PyStr) {x : Char} (c : PyStr)
    (hx : p x = false) : ∃ t, (a ++ x :: c).dropWhile p = t ++ x :: c := by
  induction a with
  | nil => exact ⟨[], by simp [List.dropWhile_cons, hx]⟩
  | cons y ys ih =>
    rw [List.cons_append, List.dropWhile_cons]
    split
    · exact ih
    · exact ⟨y :: ys, rfl⟩

theorem mem_takeWhile_append {p : Char → Bool} (pre : PyStr) {x : Char} (post : PyStr)
    (hpre : ∀ y ∈ pre, p y = true) (hx : p x = true) :
    x ∈ (pre ++ x :: post).takeWhile p := by
  induction pre with
  | nil => simp [List.takeWhile_cons, hx]
  | cons y ys ih =>
    rw [List.cons_append, List.takeWhile_cons, hpre y (List.mem_cons_self y ys)]
    exact List.mem_cons_of_mem y (ih (fun z hz => hpre z (List.mem_cons_of_mem y hz)))

theorem urlsplit_scheme_safe (u : PyStr) :
    ∀ c ∈ (urlsplit [] u).scheme, c ≠ '#' ∧ c ≠ '/' := by
  unfold urlsplit
  simp only []
  intro c hc
  split at hc
  · rename_i hfound
    simp only [pyLower, List.mem_map] at hc
    obtain ⟨a, ha, rfl⟩ := hc
    have hall : ∀ b ∈ (u.dropWhile (fun c => decide (c.toNat ≤ 0x20))).filter
        (fun c => ¬ (c = '\t' ∨ c = '\r' ∨ c = '\n')) |>.takeWhile (· ≠ ':'),
        isSchemeChar b = true := by
      have := (Bool.and_eq_true _ _).mp hfound |>.2
      intro b hb
      exact List.all_eq_true.mp this b hb
    exact pyLowerChar_scheme_ne a (hall a ha)
  · cases hc

theorem keyword_foldl_const (l : List (PyStr × ℚ)) (t : PyStr) (acc : ℚ)
    (h : ∀ kw ∈ l, keyword_in_text t kw.1 = false) :
    l.foldl (fun acc kw => if keyword_in_text t kw.1 then acc + kw.2 else acc) acc = acc := by
  induction l generalizing acc with
  | nil => rfl
  | cons kw rest ih =>
    simp only [List.foldl_cons, h kw (List.mem_cons_self kw rest), if_false,
      Bool.false_eq_true]
    exact ih acc (fun k hk => h k (List.mem_cons_of_mem kw hk))

theorem keyword_score_eq_zero (t : PyStr)
    (h : ∀ kw ∈ DECISION_KEYWORDS, keyword_in_text t kw.1 = false) :
    keyword_score t = 0 :=
  keyword_foldl_const DECISION_KEYWORDS t 0 h

theorem colon_mem_rstrip_root (scheme rest : PyStr)
    (hs : ∀ c ∈ scheme, c ≠ '#' ∧ c ≠ '/') :
    ':' ∈ cleanCandidate (pyRStripChars (pys "/") (scheme ++ ':' :: rest)) := by
  have hcolon : (pys "/").contains ':' = false := by decide
  obtain ⟨t, ht⟩ :=
    dropWhile_append_stops (p := ((pys "/").contains ·)) rest.reverse
      (c := scheme.reverse) hcolon
  have hstage1 : pyRStripChars (pys "/") (scheme ++ ':' :: rest) =
      scheme ++ ':' :: t.reverse := by
    unfold pyRStripChars dropEndWhile
    rw [show (scheme ++ ':' :: rest).reverse = rest.reverse ++ ':' :: scheme.reverse by
      simp]
    rw [ht]
    simp
  rw [hstage1]
  unfold cleanCandidate pySplitFirst
  apply mem_dropEndWhile_of_not _ hcolon
  exact mem_takeWhile_append scheme t.reverse
    (fun y hy => by simpa using (hs y hy).1) (by decide)

theorem cleanCandidatesLoop_extends (mp : Int) (cands : List PyStr) :
    ∀ seen acc, ∃ t, cleanCandidatesLoop mp cands seen acc = acc ++ t := by
  induction cands with
  | nil => exact fun seen acc => ⟨[], by simp [cleanCandidatesLoop]⟩
  | cons c rest ih =>
    intro seen acc
    unfold cleanCandidatesLoop
    dsimp only
    split
    · split
      · exact ⟨[cleanCandidate c], rfl⟩
      · obtain ⟨t, ht⟩ := ih (cleanCandidate c :: seen) (acc ++ [cleanCandidate c])
        exact ⟨[cleanCandidate c] ++ t, by rw [ht, List.append_assoc]⟩
    · exact ih seen acc

theorem discover_ne_nil (fetch : PyStr → Option FetchedPage) (mp : Int) (u : PyStr) :
    discover_team_pages fetch mp u ≠ [] := by
  have hne : cleanCandidate (pyRStripChars (pys "/")
      ((urlsplit [] u).scheme ++ pys "://" ++ (urlsplit [] u).netloc)) ≠ [] := by
    apply List.ne_nil_of_mem
    rw [show (urlsplit [] u).scheme ++ pys "://" ++ (urlsplit [] u).netloc =
        (urlsplit [] u).scheme ++ ':' :: ('/' :: '/' :: (urlsplit [] u).netloc) by
      simp [pys]]
    exact colon_mem_rstrip_root _ _ (urlsplit_scheme_safe u)
  unfold discover_team_pages assemble_candidates
  simp only [List.cons_append, List.nil_append]
  unfold cleanCandidatesLoop
  rw [if_pos ⟨hne, by simp⟩]
  split
  · simp
  · obtain ⟨t, ht⟩ := cleanCandidatesLoop_extends mp _ _ _
    rw [ht]
    simp

theorem scanPagesLoop_fetchNone (mp : Int) (pages : List PyStr) :
    ∀ searched acc, (scanPagesLoop fetchNone mp pages searched acc).2 = acc := by
  induction pages with
  | nil => intro searched acc; rfl
  | cons p rest ih =>
    intro searched acc
    unfold scanPagesLoop
    split
    · rfl
    · exact ih (searched + 1) acc

/-! ## C2: unreachable home page -/

set_option maxHeartbeats 4000000 in
/-- Counterexample for C2: with every fetch failing (home page
unreachable, hence also no anchors), `scan_site` on
`https://example.com` reports `no_people_found` — not
`no_candidate_pages` — and its candidate-page list is non-empty, because
discovery always seeds the root URL and the configured fallback team
paths regardless of the home page. -/
theorem C2_counterexample :
    (scan_site fetchNone 25 5 (pys "https://example.com")).errors =
        [pys "no_people_found"] ∧
      pys "no_candidate_pages" ∉
        (scan_site fetchNone 25 5 (pys "https://example.com")).errors ∧
      (scan_site fetchNone 25 5 (pys "https://example.com")).team_pages ≠ [] ∧
      (scan_site fetchNone 25 5 (pys "https://example.com")).people = [] ∧
      (scan_site fetchNone 25 5 (pys "https://example.com")).decision_makers = [] := by
  decide

/-- Claim C2, corrected:  For every site whose URL normalizes
successfully, when the home page (and every other page) is unreachable,
`scan_site` never reports `no_candidate_pages`: discovery still returns
the root and the fallback team paths, so the scan ends with the error
tag `no_people_found`, a non-empty `team_pages` list, and empty
`people`/`decision_makers`. -/
theorem C2_unreachable_home_no_people_found (website : PyStr) (mp dl : Int)
    (h : normalize_url website ≠ []) :
    (scan_site fetchNone mp dl website).errors = [pys "no_people_found"] ∧
      (scan_site fetchNone mp dl website).team_pages ≠ [] ∧
      (scan_site fetchNone mp dl website).people = [] ∧
      (scan_site fetchNone mp dl website).decision_makers = [] := by
  have hd := discover_ne_nil fetchNone mp (normalize_url website)
  have hs := scanPagesLoop_fetchNone mp
    (discover_team_pages fetchNone mp (normalize_url website)) 0 []
  simp only [scan_site, h, hd, hs, if_false, if_true, ite_false, ite_true,
    if_neg h, if_neg hd, if_pos hs]
  exact ⟨trivial, hd, trivial, trivial⟩

/-- Witness for C2's theorem at a concrete website. -/
theorem C2_unreachable_home_no_people_found_witness :
    normalize_url (pys "https://example.com") ≠ [] ∧
      (scan_site fetchNone 3 5 (pys "https://example.com")).errors =
        [pys "no_people_found"] :=
  ⟨by decide,
   (C2_unreachable_home_no_people_found (pys "https://example.com") 3 5 (by decide)).1⟩

theorem cleanCandidatesLoop_spec (mp : Int) (cands : List PyStr) :
    ∀ seen acc, acc.Nodup → (∀ x ∈ acc, x ∈ seen) → (acc.length : Int) < mp →
      (cleanCandidatesLoop mp cands seen acc).Nodup ∧
        ((cleanCandidatesLoop mp cands seen acc).length : Int) ≤ mp ∧
        ∃ t, cleanCandidatesLoop mp cands seen acc = acc ++ t ∧
          t.Sublist (cands.map cleanCandidate) := by
  induction cands with
  | nil =>
    intro seen acc hnd _ hlt
    exact ⟨hnd, by exact_mod_cast le_of_lt hlt, [], by simp [cleanCandidatesLoop],
      List.nil_sublist _⟩
  | cons c rest ih =>
    intro seen acc hnd hsub hlt
    unfold cleanCandidatesLoop
    dsimp only
    split
    · rename_i hacc
      have hnotin : cleanCandidate c ∉ acc := fun hmem => hacc.2 (hsub _ hmem)
      have hnd' : (acc ++ [cleanCandidate c]).Nodup := by
        simp [List.nodup_append, hnd, hnotin]
      split
      · rename_i hfull
        refine ⟨hnd', ?_, [cleanCandidate c], rfl, ?_⟩
        · simp only [List.length_append, List.length_singleton] at hfull ⊢
          push_cast at hfull ⊢
          omega
        · exact (List.nil_sublist _).cons₂ _
      · rename_i hroom
        have hsub' : ∀ x ∈ acc ++ [cleanCandidate c], x ∈ cleanCandidate c :: seen := by
          intro x hx
          rcases List.mem_append.mp hx with hx | hx
          · exact List.mem_cons_of_mem _ (hsub x hx)
          · simp at hx
            simp [hx]
        have hlt' : ((acc ++ [cleanCandidate c]).length : Int) < mp := by
          simp only [List.length_append, List.length_singleton] at hroom ⊢
          push_cast at hroom ⊢
          omega
        obtain ⟨nd, len, t, ht, hsl⟩ := ih (cleanCandidate c :: seen) _ hnd' hsub' hlt'
        refine ⟨nd, len, [cleanCandidate c] ++ t, by rw [ht, List.append_assoc], ?_⟩
        simpa using hsl.cons₂ (cleanCandidate c)
    · obtain ⟨nd, len, t, ht, hsl⟩ := ih seen acc hnd hsub hlt
      exact ⟨nd, len, t, ht, hsl.cons _⟩

/-! ## C9: shape of the discovery output -/

set_option maxHeartbeats 1000000 in
/-- Counterexample for C9: with `max_pages = 0`, the break in the
cleaning loop fires only *after* a candidate has been appended, so
`discover_team_pages` returns one URL — exceeding the configured
maximum page count of zero. -/
theorem C9_counterexample :
    ((discover_team_pages fetchNone 0 (pys "https://example.com")).length : Int) = 1 ∧
      ¬ ((discover_team_pages fetchNone 0 (pys "https://example.com")).length : Int) ≤ 0 := by
  decide

/-- Claim C9, corrected:  For every base URL and every maximum page count
of at least one, `discover_team_pages` returns a duplicate-free list
(its entries are the fragment- and trailing-slash-stripped candidate
URLs), preserves the candidates' first-seen order (the output is a
subsequence of the cleaned candidate sequence), and has at most
`max_pages` entries.  With a zero (or negative) maximum the bound fails:
the loop breaks only after appending, so one entry is still returned. -/
theorem C9_discover_nodup_ordered_bounded (fetch : PyStr → Option FetchedPage)
    (mp : Int) (base : PyStr) (h : 1 ≤ mp) :
    (discover_team_pages fetch mp base).Nodup ∧
      ((discover_team_pages fetch mp base).length : Int) ≤ mp ∧
      (discover_team_pages fetch mp base).Sublist
        ((assemble_candidates fetch base).map cleanCandidate) := by
  obtain ⟨nd, len, t, ht, hsl⟩ :=
    cleanCandidatesLoop_spec mp (assemble_candidates fetch base) [] []
      List.nodup_nil (by simp) (by exact_mod_cast h)
  refine ⟨nd, len, ?_⟩
  unfold discover_team_pages
  rw [ht]
  simpa using hsl

/-- Witness for C9's theorem at a concrete site and budget. -/
theorem C9_discover_nodup_ordered_bounded_witness :
    (1 : Int) ≤ 25 ∧
      ((discover_team_pages fetchNone 25 (pys "https://example.com")).Nodup ∧
        ((discover_team_pages fetchNone 25 (pys "https://example.com")).length : Int) ≤ 25 ∧
        (discover_team_pages fetchNone 25 (pys "https://example.com")).Sublist
          ((assemble_candidates fetchNone (pys "https://example.com")).map cleanCandidate)) :=
  ⟨by decide,
   C9_discover_nodup_ordered_bounded fetchNone 25 (pys "https://example.com") (by decide)⟩

/-! ## C1: dedup of a title-only and an email-only record -/

theorem dedup_two_distinct_keys (a b : PersonCandidate) (hk : a.key ≠ b.key) :
    dedup_people [a, b] = [a, b] := by
  simp [dedup_people, dedupInsert, hk]

/-- Claim C1, corrected:  `scan_site`'s deduplication groups by the full
identity key — the 4-tuple of trimmed, lower-cased name, title,
profileLink and email — so a record carrying only a title and a record
carrying only an email have *different* keys even when their names
agree, and the merge loop keeps them as two separate records; neither
output record ends up with both title and email populated. -/
theorem C1_dedup_name_only_not_merged (a b : PersonCandidate)
    (_hname : pyLower (pyStrip a.name) = pyLower (pyStrip b.name))
    (htitle : pyLower (pyStrip a.title) ≠ [])
    (hbt : b.title = []) :
    dedup_people [a, b] = [a, b] := by
  apply dedup_two_distinct_keys
  intro hkey
  apply htitle
  have h2 := congrArg (fun k => k.2.1) hkey
  simpa [PersonCandidate.key, hbt, pyStrip, pyLower, dropEndWhile] using h2

/-- Witness for C1's theorem at the concrete scenario records. -/
theorem C1_dedup_name_only_not_merged_witness :
    pyLower (pyStrip janeTitleOnly.name) = pyLower (pyStrip janeEmailOnly.name) ∧
      dedup_people [janeTitleOnly, janeEmailOnly] = [janeTitleOnly, janeEmailOnly] :=
  ⟨by decide,
   C1_dedup_name_only_not_merged janeTitleOnly janeEmailOnly (by decide) (by decide)
     (by decide)⟩

/-- Counterexample for C1: for the spec's own scenario — two "Jane Doe"
records, one with only a title, one with only an email — the
deduplication of `scan_site` produces *two* records, and no output
record has both title and email populated, contradicting the claimed
merge into a single fully-populated record. -/
theorem C1_counterexample :
    (dedup_people [janeTitleOnly, janeEmailOnly]).length = 2 ∧
      ∀ p ∈ dedup_people [janeTitleOnly, janeEmailOnly],
        ¬ (p.title ≠ [] ∧ p.email ≠ []) := by
  decide

/-! ## C4: the two profile URLs of the spec's scenario canonicalize
to the same value -/

/-- Claim C4, confirmed:  `https://nl.linkedin.com/in/jane-doe/` and
`//www.linkedin.com/in/jane-doe` are both accepted by
`_normalize_linkedin` and canonicalize to the same non-empty value
`https://www.linkedin.com/in/jane-doe` (https scheme, `www` host,
trailing slash stripped). -/
theorem C4_linkedin_canonical_forms :
    normalize_linkedin (pys "https://nl.linkedin.com/in/jane-doe/") =
        pys "https://www.linkedin.com/in/jane-doe" ∧
      normalize_linkedin (pys "//www.linkedin.com/in/jane-doe") =
        pys "https://www.linkedin.com/in/jane-doe" ∧
      pys "https://www.linkedin.com/in/jane-doe" ≠ [] := by
  decide

/-! ## C3: which hosts `_normalize_linkedin` rejects -/

/-- Counterexample for C3: the host `notlinkedin.com` is neither
`linkedin.com` nor one of its subdomains, yet `_normalize_linkedin`
accepts the URL (the source tests `"linkedin.com" in netloc`, a
substring check) and returns a non-empty canonical form. -/
theorem C3_counterexample :
    normalize_linkedin (pys "https://notlinkedin.com/in/x") =
        pys "https://www.linkedin.com/in/x" ∧
      (urlsplit [] (linkedinPre (pys "https://notlinkedin.com/in/x"))).netloc ≠
        pys "linkedin.com" ∧
      ¬ (pys ".linkedin.com").isSuffixOf
          ((urlsplit [] (linkedinPre (pys "https://notlinkedin.com/in/x"))).netloc) := by
  decide

/-- Claim C3, corrected:  `_normalize_linkedin` rejects a URL exactly when
the lower-cased authority of its (trimmed, protocol-relative-resolved)
form does not *contain* `linkedin.com` as a substring; hosts that merely
embed the domain, such as `notlinkedin.com`, are accepted. -/
theorem C3_reject_iff_no_substring (url : PyStr)
    (h : pyContains (pyLower (urlsplit [] (linkedinPre url)).netloc)
          (pys "linkedin.com") = false) :
    normalize_linkedin url = [] := by
  unfold normalize_linkedin
  split
  · rfl
  · simp only [h, Bool.false_eq_true, if_false]
    split <;> rfl

/-- Witness for C3's theorem at a concrete rejected URL. -/
theorem C3_reject_iff_no_substring_witness :
    pyContains (pyLower (urlsplit [] (linkedinPre (pys "https://example.com/x"))).netloc)
        (pys "linkedin.com") = false ∧
      normalize_linkedin (pys "https://example.com/x") = [] :=
  ⟨by decide, C3_reject_iff_no_substring (pys "https://example.com/x") (by decide)⟩

/-! ## C6: adding a contact field adds exactly 1.5 to the score -/

/-- Claim C6, confirmed:  For any person record with empty `linkedin` and
`email`, filling in a non-empty `linkedin` (resp. `email`) while keeping
every other field identical increases `_score_person`'s score by exactly
1.5, and filling in both increases it by exactly 3.0: the score is a sum
of independent terms and each non-empty contact field contributes
exactly `+1.5`. -/
theorem C6_score_contact_monotonic (p : PersonCandidate) (l e : PyStr)
    (hl0 : p.linkedin = []) (he0 : p.email = []) (hl : l ≠ []) (he : e ≠ []) :
    (score_person { p with linkedin := l }).score = (score_person p).score + 3 / 2 ∧
      (score_person { p with email := e }).score = (score_person p).score + 3 / 2 ∧
      (score_person { p with linkedin := l, email := e }).score =
        (score_person p).score + 3 := by
  simp only [score_person, score_value, contact_bonus, hl0, he0, hl, he,
    ne_eq, not_true_eq_false, not_false_eq_true, if_true, if_false, ite_true,
    ite_false]
  refine ⟨by ring, by ring, by ring⟩

/-- Witness for C6's theorem at a concrete record and contact values. -/
theorem C6_score_contact_monotonic_witness :
    janeTitleOnly.linkedin = [] ∧ janeTitleOnly.email = [] ∧
      pys "https://www.linkedin.com/in/jane-doe" ≠ ([] : PyStr) ∧
      pys "jane@x.com" ≠ ([] : PyStr) ∧
      (score_person { janeTitleOnly with
          linkedin := pys "https://www.linkedin.com/in/jane-doe" }).score =
        (score_person janeTitleOnly).score + 3 / 2 :=
  ⟨by decide, by decide, by decide, by decide,
   (C6_score_contact_monotonic janeTitleOnly
      (pys "https://www.linkedin.com/in/jane-doe") (pys "jane@x.com")
      (by decide) (by decide) (by decide) (by decide)).1⟩

/-! ## Selection lemmas for C5 and C10 -/

theorem insertDesc_length (p : PersonCandidate) (l : List PersonCandidate) :
    (insertDesc p l).length = l.length + 1 := by
  induction l with
  | nil => rfl
  | cons q qs ih =>
    unfold insertDesc
    split
    · simp [ih]
    · rfl

theorem sortDesc_length (l : List PersonCandidate) : (sortDesc l).length = l.length := by
  unfold sortDesc
  suffices h : ∀ acc, (l.foldl (fun acc p => insertDesc p acc) acc).length =
      acc.length + l.length by
    simpa using h []
  induction l with
  | nil => simp
  | cons p rest ih =>
    intro acc
    simp only [List.foldl_cons, ih, insertDesc_length, List.length_cons]
    omega

theorem mem_insertDesc {x p : PersonCandidate} {l : List PersonCandidate} :
    x ∈ insertDesc p l ↔ x = p ∨ x ∈ l := by
  induction l with
  | nil => simp [insertDesc]
  | cons q qs ih =>
    unfold insertDesc
    split
    · simp only [List.mem_cons, ih]
      tauto
    · simp only [List.mem_cons]

theorem mem_sortDesc {x : PersonCandidate} {l : List PersonCandidate} :
    x ∈ sortDesc l ↔ x ∈ l := by
  unfold sortDesc
  suffices h : ∀ acc, x ∈ l.foldl (fun acc p => insertDesc p acc) acc ↔
      x ∈ acc ∨ x ∈ l by
    simpa using h []
  induction l with
  | nil => simp
  | cons p rest ih =>
    intro acc
    simp only [List.foldl_cons, ih, mem_insertDesc, List.mem_cons]
    tauto

theorem insertDesc_pairwise {p : PersonCandidate} {l : List PersonCandidate}
    (h : l.Pairwise (fun a b => b.score ≤ a.score)) :
    (insertDesc p l).Pairwise (fun a b => b.score ≤ a.score) := by
  induction l with
  | nil => simp [insertDesc]
  | cons q qs ih =>
    unfold insertDesc
    rw [List.pairwise_cons] at h
    split
    · rename_i hle
      rw [List.pairwise_cons]
      refine ⟨?_, ih h.2⟩
      intro a ha
      rcases mem_insertDesc.mp ha with rfl | ha
      · exact hle
      · exact h.1 a ha
    · rename_i hgt
      push_neg at hgt
      rw [List.pairwise_cons]
      refine ⟨?_, List.pairwise_cons.mpr h⟩
      intro a ha
      rcases List.mem_cons.mp ha with rfl | ha
      · exact le_of_lt hgt
      · exact le_trans (h.1 a ha) (le_of_lt hgt)

theorem sortDesc_pairwise (l : List PersonCandidate) :
    (sortDesc l).Pairwise (fun a b => b.score ≤ a.score) := by
  unfold sortDesc
  suffices h : ∀ acc, acc.Pairwise (fun a b => b.score ≤ a.score) →
      (l.foldl (fun acc p => insertDesc p acc) acc).Pairwise
        (fun a b => b.score ≤ a.score) by
    exact h [] List.Pairwise.nil
  induction l with
  | nil => exact fun acc h => h
  | cons p rest ih =>
    intro acc hacc
    exact ih _ (insertDesc_pairwise hacc)

theorem sortDesc_head_max {l : List PersonCandidate} {h : PersonCandidate}
    {t : List PersonCandidate} (heq : sortDesc l = h :: t) :
    ∀ x ∈ l, x.score ≤ h.score := by
  intro x hx
  have hmem : x ∈ h :: t := heq ▸ mem_sortDesc.mpr hx
  rcases List.mem_cons.mp hmem with rfl | hmem
  · exact le_refl _
  · have hp := sortDesc_pairwise l
    rw [heq, List.pairwise_cons] at hp
    exact hp.1 x hmem

theorem selLoop_nonpos (limit : Int) (l : List PersonCandidate)
    (h : limit ≤ 0) : selLoop limit l [] = [] := by
  cases l with
  | nil => rfl
  | cons p rest =>
    unfold selLoop
    rw [if_pos (by simpa using h)]

theorem selLoop_all_below (limit : Int) (l : List PersonCandidate)
    (h : ∀ x ∈ l, x.score < 3 / 2) : selLoop limit l [] = [] := by
  induction l with
  | nil => rfl
  | cons p rest ih =>
    unfold selLoop
    split
    · rfl
    · have hp := h p (List.mem_cons_self p rest)
      rw [if_neg]
      · exact ih (fun x hx => h x (List.mem_cons_of_mem p hx))
      · push_neg
        refine ⟨by linarith, fun _ => by linarith⟩

theorem sortDesc_ne_nil {l : List PersonCandidate} (h : l ≠ []) : sortDesc l ≠ [] := by
  intro hc
  apply h
  have := sortDesc_length l
  rw [hc] at this
  exact List.length_eq_zero.mp this.symm

theorem select_ne_nil (limit : Int) (people : List PersonCandidate)
    (h : people ≠ []) : select_decision_makers limit people ≠ [] := by
  unfold select_decision_makers
  dsimp only
  split
  · have hs : sortDesc (people.map score_person) ≠ [] :=
      sortDesc_ne_nil (by simpa using h)
    split
    · rename_i heq
      exact absurd heq hs
    · simp
  · assumption

/-! ## C5: the selection fallback guarantee -/

/-- Claim C5, confirmed:  For every non-empty person list,
`_select_decision_makers` returns at least one record; and when no
record reaches the admission thresholds (every score below 1.5, hence
also below 3.0), the returned list is exactly the single highest-scoring
record with `fallback` appended to its rank reason. -/
theorem C5_selection_fallback (limit : Int) (people : List PersonCandidate)
    (hne : people ≠ []) :
    select_decision_makers limit people ≠ [] ∧
      ((∀ q ∈ people, (score_person q).score < 3 / 2) →
        ∃ h t, sortDesc (people.map score_person) = h :: t ∧
          select_decision_makers limit people = [apply_fallback h] ∧
          ∀ q ∈ people, (score_person q).score ≤ h.score) := by
  refine ⟨select_ne_nil limit people hne, fun hall => ?_⟩
  have hs : sortDesc (people.map score_person) ≠ [] :=
    sortDesc_ne_nil (by simpa using hne)
  obtain ⟨h, t, heq⟩ := List.exists_cons_of_ne_nil hs
  refine ⟨h, t, heq, ?_, fun q hq => sortDesc_head_max heq _ (List.mem_map_of_mem _ hq)⟩
  have hloop : selLoop limit (sortDesc (people.map score_person)) [] = [] := by
    apply selLoop_all_below
    intro x hx
    obtain ⟨q, hq, rfl⟩ := List.mem_map.mp (mem_sortDesc.mp hx)
    exact hall q hq
  unfold select_decision_makers
  dsimp only
  rw [hloop, if_pos rfl, heq]

/-- Witness for C5's theorem: a single all-empty record scores 0 < 1.5
and is returned as the fallback decision-maker. -/
theorem C5_selection_fallback_witness :
    (([{ name := pys "x" }] : List PersonCandidate) ≠ []) ∧
      select_decision_makers 5 [{ name := pys "x" }] ≠ [] :=
  ⟨by simp, (C5_selection_fallback 5 [{ name := pys "x" }] (by simp)).1⟩

/-! ## C10: a zero decision limit still yields one record -/

/-- Claim C10, confirmed:  With `decision_limit = 0` and a non-empty
input, the admission loop stops immediately, so the fallback branch
returns exactly one record — the highest-scoring one, with `fallback`
appended to its rank reason — and the returned list exceeds the
configured limit. -/
theorem C10_zero_limit_returns_fallback (people : List PersonCandidate)
    (hne : people ≠ []) :
    ∃ h t, sortDesc (people.map score_person) = h :: t ∧
      select_decision_makers 0 people = [apply_fallback h] ∧
      (∀ q ∈ people, (score_person q).score ≤ h.score) ∧
      ¬ (((select_decision_makers 0 people).length : Int) ≤ 0) := by
  have hs : sortDesc (people.map score_person) ≠ [] :=
    sortDesc_ne_nil (by simpa using hne)
  obtain ⟨h, t, heq⟩ := List.exists_cons_of_ne_nil hs
  have hloop : selLoop 0 (sortDesc (people.map score_person)) [] = [] :=
    selLoop_nonpos 0 _ le_rfl
  have hsel : select_decision_makers 0 people = [apply_fallback h] := by
    unfold select_decision_makers
    dsimp only
    rw [hloop, if_pos rfl, heq]
  refine ⟨h, t, heq, hsel,
    fun q hq => sortDesc_head_max heq _ (List.mem_map_of_mem _ hq), ?_⟩
  rw [hsel]
  simp

/-- Witness for C10's theorem at a concrete one-record list. -/
theorem C10_zero_limit_returns_fallback_witness :
    (([{ name := pys "x" }] : List PersonCandidate) ≠ []) ∧
      ¬ (((select_decision_makers 0 [{ name := pys "x" }]).length : Int) ≤ 0) := by
  refine ⟨by simp, ?_⟩
  obtain ⟨h, t, _, _, _, hlen⟩ :=
    C10_zero_limit_returns_fallback [{ name := pys "x" }] (by simp)
  exact hlen

/-! ## C7: the spec's flagship scoring scenario

The decision-keyword table gives "chief executive" and
"chief executive officer" weight 10, and `keyword_in_text` is clearly
built to match them against the title with flexible separators.  But
`re.escape` backslash-escapes ASCII spaces and hyphens, so the
separator-run substitution fires on the bare space/hyphen *after* the
escaping backslash, producing patterns like
`chief\[\s …]+executive` in which `\[` is a literal bracket —
multi-word keywords can therefore never match ordinary text, and the
scenario record scores 2 (chief) + 1.5 + 1.5 = 5, not ≥ 15. -/

set_option maxHeartbeats 4000000 in
set_option maxRecDepth 100000 in
/-- Claim C7, code bug:  The record with title
"Jane Doe — Chief Executive Officer" and non-empty profile link and
email receives a score of exactly 5 from `_score_person` — not the
spec's ≥ 15 — because no keyword of the table matches the title under
the broken escaped pattern. -/
theorem C7_scenario_scores_five :
    (score_person janeCeo).score = 5 ∧ ¬ (15 ≤ (score_person janeCeo).score) := by
  have hkw : keyword_score (pyLower janeCeo.title) = 0 :=
    keyword_score_eq_zero _ (by decide)
  have hchief : chief_bonus (pyLower janeCeo.title) = 2 := by
    rw [chief_bonus, if_pos (by decide)]
  have hvp : vp_bonus (pyLower janeCeo.title) = 0 := by
    rw [vp_bonus, if_neg (by decide)]
  have hlink : contact_bonus janeCeo.linkedin = 3 / 2 := by
    rw [contact_bonus, if_pos (by decide)]
  have hemail : contact_bonus janeCeo.email = 3 / 2 := by
    rw [contact_bonus, if_pos (by decide)]
  have hsrc : source_bonus janeCeo.source_url = 0 := by
    simp only [source_bonus]
    rw [if_neg (by decide)]
  have hscore : (score_person janeCeo).score = 5 := by
    simp only [score_person, score_value, hkw, hchief, hvp, hlink, hemail, hsrc]
    norm_num
  exact ⟨hscore, by rw [hscore]; norm_num⟩

/-! ## C8: every extracted record is admissible -/

theorem mergeInto_reasonable {e p : PersonCandidate}
    (h : e.is_reasonable = true) : (mergeInto e p).is_reasonable = true := by
  unfold PersonCandidate.is_reasonable at h ⊢
  unfold mergeInto
  simp only [Bool.or_eq_true, decide_eq_true_eq] at h ⊢
  split_ifs <;> tauto

theorem dedup_foldl_preserves (P : PersonCandidate → Prop)
    (hmerge : ∀ e p, P e → P (mergeInto e p)) :
    ∀ (l acc : List PersonCandidate), (∀ x ∈ l, P x) → (∀ x ∈ acc, P x) →
      ∀ y ∈ l.foldl dedupInsert acc, P y := by
  intro l
  induction l with
  | nil => exact fun acc _ hacc y hy => hacc y hy
  | cons p rest ih =>
    intro acc hl hacc y hy
    rw [List.foldl_cons] at hy
    refine ih (dedupInsert acc p) (fun x hx => hl x (List.mem_cons_of_mem p hx)) ?_ y hy
    intro x hx
    unfold dedupInsert at hx
    split at hx
    · obtain ⟨e, he, hfe⟩ := List.mem_map.mp hx
      rw [← hfe]
      split
      · exact hmerge e p (hacc e he)
      · exact hacc e he
    · rcases List.mem_append.mp hx with hx | hx
      · exact hacc x hx
      · rw [List.mem_singleton] at hx
        exact hx ▸ hl p (List.mem_cons_self p rest)

theorem is_name_like_ne_nil {v : PyStr} (h : is_name_like v = true) : v ≠ [] := by
  intro hv
  rw [hv] at h
  exact absurd h (by decide)

theorem script_extract_name_ne_nil (script_text source_url base_url : PyStr) :
    ∀ p ∈ extract_people_from_script_text script_text source_url base_url,
      p.name ≠ [] := by
  intro p hp
  unfold extract_people_from_script_text at hp
  split at hp
  · cases hp
  · obtain ⟨hit, _, hm⟩ := List.mem_filterMap.mp hp
    dsimp only at hm
    by_cases hn : is_name_like (pyStrip (unescape_js_string hit.group2)) = true
    · rw [if_neg (by simp [hn])] at hm
      rcases ite_eq_iff.mp hm with ⟨_, habs⟩ | ⟨_, hsome⟩
      · cases habs
      · injection hsome with hsome
        rw [← hsome]
        exact is_name_like_ne_nil hn
    · rw [if_pos (by simpa using hn)] at hm
      cases hm

/-- Claim C8, confirmed:  Every record `_extract_people_from_html` emits —
whatever `add_person` calls the DOM-walking strategies produce and
whatever script payloads the bundle scanner collects — has at least one
of name, title, linkedin, email non-empty: `add_person` filters on
`is_reasonable`, the script extractor only keeps records whose name
passes the name-shape test, and the merge loop never blanks a field. -/
theorem C8_no_all_empty_record (rawPeople : List RawPersonArgs)
    (scriptTexts : List (PyStr × PyStr)) (base_url : PyStr) :
    ∀ p ∈ extract_people_from_html rawPeople scriptTexts base_url,
      p.name ≠ [] ∨ p.title ≠ [] ∨ p.linkedin ≠ [] ∨ p.email ≠ [] := by
  intro p hp
  have hP : p.is_reasonable = true := by
    unfold extract_people_from_html at hp
    refine dedup_foldl_preserves (fun q => q.is_reasonable = true)
      (fun e q he => mergeInto_reasonable he) _ [] ?_ (by simp) p hp
    intro x hx
    rcases List.mem_append.mp hx with hx | hx
    · obtain ⟨r, _, hr⟩ := List.mem_filterMap.mp hx
      unfold add_person at hr
      dsimp only at hr
      split at hr
      · injection hr with hr
        rw [← hr]
        assumption
      · cases hr
    · obtain ⟨lp, hlp, hxl⟩ := List.mem_flatten.mp hx
      obtain ⟨st, _, hst⟩ := List.mem_map.mp hlp
      have := script_extract_name_ne_nil st.1 st.2 base_url x (hst ▸ hxl)
      unfold PersonCandidate.is_reasonable
      simp [this]
  unfold PersonCandidate.is_reasonable at hP
  have := by simpa using hP
  tauto

/-- Witness for C8's theorem: a name-only raw record survives extraction
and satisfies the admissibility invariant. -/
theorem C8_no_all_empty_record_witness :
    ({ name := pys "Jane Doe" } : PersonCandidate) ∈
        extract_people_from_html [{ name := pys "Jane Doe" }] [] [] ∧
      (({ name := pys "Jane Doe" } : PersonCandidate).name ≠ [] ∨
        ({ name := pys "Jane Doe" } : PersonCandidate).title ≠ [] ∨
        ({ name := pys "Jane Doe" } : PersonCandidate).linkedin ≠ [] ∨
        ({ name := pys "Jane Doe" } : PersonCandidate).email ≠ []) := by
  have hmem : ({ name := pys "Jane Doe" } : PersonCandidate) ∈
      extract_people_from_html [{ name := pys "Jane Doe" }] [] [] := by decide
  exact ⟨hmem, C8_no_all_empty_record [{ name := pys "Jane Doe" }] [] []
    { name := pys "Jane Doe" } hmem⟩

end LeadEnricher
